import Mathlib

/-!
Shallow embedding of the particle simulation engine of this repository:
the entity/constraint data model (`Particle`, `Spring`), the tag index and
spatial grid (`TagIndex`, `SpatialGrid`), and the orchestrating
`ParticleSystem` with its six-phase tick, followed by theorems checking the
specification's claims against these definitions.

Conventions of the embedding:
* JavaScript numbers are modelled as rationals (`ℚ`); `Math.sqrt` is an
  explicit function parameter `sqrtFn : ℚ → ℚ` threaded into the operations
  that need a square root, so theorems quantify over it and concrete
  evaluations instantiate it with a function agreeing with the real square
  root at the values actually reached.
* Mutable objects shared by reference (particles, springs) live in stores
  `PId → Particle` / `SId → Spring`; methods become store transformers.
* A JavaScript exception is modelled as `Option.none`; fallible operations
  return `Option`.
-/

namespace Playground

abbrev PId := Nat
abbrev SId := Nat

/-- Update one slot of a particle store. -/
def updStore (st : PId → α) (i : PId) (f : α → α) : PId → α :=
  fun j => if j = i then f (st j) else st j

/-- 3-component vector backing particle positions, velocities and forces.
The repository's `Vector3.js` class (imported by `Particle.js` and
`Spring.js`) is not among the provided sources; the componentwise operations
below are the unambiguous meanings of the methods the sources call. -/
structure Vector3 where
  x : ℚ
  y : ℚ
  z : ℚ
deriving DecidableEq, Repr

namespace Vector3

/-- `Vector3.zero()` -/
def zero : Vector3 := ⟨0, 0, 0⟩

/-- `v.addVector(w)` — componentwise addition. -/
def addVector (v w : Vector3) : Vector3 := ⟨v.x + w.x, v.y + w.y, v.z + w.z⟩

/-- `Vector3.sub(v, w)` — componentwise difference. -/
def sub (v w : Vector3) : Vector3 := ⟨v.x - w.x, v.y - w.y, v.z - w.z⟩

/-- `v.mult(s)` — scale by a scalar. -/
def mult (v : Vector3) (s : ℚ) : Vector3 := ⟨v.x * s, v.y * s, v.z * s⟩

/-- `v.div(s)` — divide by a scalar (mass is positive by the data-model
invariant, so the `s = 0` case is never reached by the engine). -/
def div (v : Vector3) (s : ℚ) : Vector3 := ⟨v.x / s, v.y / s, v.z / s⟩

/-- Squared magnitude `x² + y² + z²`. -/
def magSq (v : Vector3) : ℚ := v.x * v.x + v.y * v.y + v.z * v.z

/-- `v.magnitude()` — length of the vector, via the square-root parameter. -/
def magnitude (sqrtFn : ℚ → ℚ) (v : Vector3) : ℚ := sqrtFn v.magSq

/-- Modelled from the spec: `v.normalize()` of the missing `Vector3.js`.
Per §7 of the spec, division by zero in normalization "must be defined as a
no-op rather than left to propagate non-finite values"; the repository's
other vector class (`Vector.normalize`) indeed guards `if (mag > 0)`.
So a zero-length vector is left unchanged. -/
def normalize (sqrtFn : ℚ → ℚ) (v : Vector3) : Vector3 :=
  let mag := v.magnitude sqrtFn
  if mag > 0 then v.div mag else v

/-- `v.limit(max)` (from `Vec3.js`): if the length exceeds `max`, rescale the
vector to length `max` (set `length = max`, i.e. scale by `max / length`). -/
def limit (sqrtFn : ℚ → ℚ) (v : Vector3) (max : ℚ) : Vector3 :=
  let len := v.magnitude sqrtFn
  if len > max then v.mult (max / len) else v

end Vector3

/-- `Particle` (Particle.js): a point mass with position, velocity, force
accumulator, life counter, removal flag, mass, constraint references, static
flag and tag set.  Tags are kept as an insertion-ordered duplicate-free list
(the JS `Set`); constraint references are spring ids. -/
structure Particle where
  position : Vector3
  velocity : Vector3
  forces : Vector3
  life : Nat
  removeFlag : Bool
  mass : ℚ
  connections : List SId
  staticBody : Bool
  tags : List String
  lastPosition : Option Vector3
deriving DecidableEq, Repr

namespace Particle

/-- The `Particle` constructor: position copied from the argument, velocity
and forces zero, life 0, mass 1, no flags, no tags, no connections. -/
def new (position : Vector3) : Particle :=
  { position := position
    velocity := Vector3.zero
    forces := Vector3.zero
    life := 0
    removeFlag := false
    mass := 1
    connections := []
    staticBody := false
    tags := []
    lastPosition := none }

/-- `applyForce(force)`: add to the accumulator unless the body is static. -/
def applyForce (p : Particle) (force : Vector3) : Particle :=
  if p.staticBody then p else { p with forces := p.forces.addVector force }

/-- `flushForces(limit)`: clamp the accumulated force when a non-negative cap
is given, divide by mass, add to velocity, then reset the accumulator's `x`
and `y` components (the source resets only `forces.x` and `forces.y`). -/
def flushForces (sqrtFn : ℚ → ℚ) (p : Particle) (lim : ℚ) : Particle :=
  let f := if lim ≥ 0 then p.forces.limit sqrtFn lim else p.forces
  let f := f.div p.mass
  { p with velocity := p.velocity.addVector f, forces := ⟨0, 0, f.z⟩ }

/-- `update(maxForce)`: remember the last position, flush forces into the
velocity, advance the position by the velocity and increment `life`. -/
def update (sqrtFn : ℚ → ℚ) (p : Particle) (maxForce : ℚ) : Particle :=
  let p := { p with lastPosition := some p.position }
  let p := p.flushForces sqrtFn maxForce
  { p with position := p.position.addVector p.velocity, life := p.life + 1 }

/-- `shouldRemove()` -/
def shouldRemove (p : Particle) : Bool := p.removeFlag

/-- `addConnection(conn)` — push a spring reference. -/
def addConnection (p : Particle) (sid : SId) : Particle :=
  { p with connections := p.connections ++ [sid] }

/-- `removeSpring(spring)` — splice out the first matching reference. -/
def removeSpring (p : Particle) (sid : SId) : Particle :=
  { p with connections := p.connections.erase sid }

end Particle

/-- `Spring` (Spring.js): a Hookean link between two particles. -/
structure Spring where
  particle1 : PId
  particle2 : PId
  springLength : ℚ
  k : ℚ
  removeFlag : Bool
deriving DecidableEq, Repr

namespace Spring

/-- `Spring.update()`: `delta = p1.pos − p2.pos`; restoring magnitude
`(springLength − |delta|) * k`; normalize `delta`, scale it by the magnitude,
apply it to `particle1` and its negation to `particle2`. -/
def update (sqrtFn : ℚ → ℚ) (s : Spring) (st : PId → Particle) : PId → Particle :=
  let delta := Vector3.sub (st s.particle1).position (st s.particle2).position
  let forceMag := (s.springLength - delta.magnitude sqrtFn) * s.k
  let delta := (delta.normalize sqrtFn).mult forceMag
  let st := updStore st s.particle1 (fun p => p.applyForce delta)
  updStore st s.particle2 (fun p => p.applyForce (delta.mult (-1)))

/-- `shouldRemove()` -/
def shouldRemove (s : Spring) : Bool := s.removeFlag

end Spring

/-- Tag filter shapes accepted by `TagIndex.query`: the empty filter `{}`,
`{and: [tags...]}` and `{or: [tags...]}` (when both keys are present the
source tests `and` first, so the shapes are disjoint alternatives). -/
inductive Filter where
  | empty : Filter
  | fAnd : List String → Filter
  | fOr : List String → Filter
deriving DecidableEq, Repr

/-- `TagIndex`: a flat membership list plus a tag → members map, modelled as
an insertion-ordered association list (the JS `Map`). -/
structure TagIndex where
  particles : List PId
  tagIndex : List (String × List PId)
deriving DecidableEq, Repr

namespace TagIndex

/-- The empty index (the `TagIndex` constructor). -/
def empty : TagIndex := ⟨[], []⟩

/-- `this.tagIndex.get(tag)` — first binding of the key, if any. -/
def getTag (ti : TagIndex) (tag : String) : Option (List PId) :=
  (ti.tagIndex.find? (fun kv => kv.1 = tag)).map (·.2)

/-- `addTag(entity, tag)`: create the key's array if absent (JS `Map.set`
appends new keys), then push the entity if not already present. -/
def addTag (ti : TagIndex) (e : PId) (tag : String) : TagIndex :=
  let withKey := if (ti.getTag tag).isSome then ti.tagIndex else ti.tagIndex ++ [(tag, [])]
  { ti with
      tagIndex := withKey.map (fun kv =>
        if kv.1 = tag then (kv.1, if e ∈ kv.2 then kv.2 else kv.2 ++ [e]) else kv) }

/-- `removeTag(entity, tag)`: splice the entity out of the tag's array
(no-op when the key is absent). -/
def removeTag (ti : TagIndex) (e : PId) (tag : String) : TagIndex :=
  { ti with
      tagIndex := ti.tagIndex.map (fun kv =>
        if kv.1 = tag then (kv.1, kv.2.erase e) else kv) }

/-- `add(entity)`: push onto the membership list and index every tag of the
entity (the entity's current tag set is passed in by the caller). -/
def add (ti : TagIndex) (e : PId) (tags : List String) : TagIndex :=
  let ti := { ti with particles := ti.particles ++ [e] }
  tags.foldl (fun ti tag => ti.addTag e tag) ti

/-- `remove(entity)`: splice the entity from the membership list and
de-index every tag of the entity. -/
def remove (ti : TagIndex) (e : PId) (tags : List String) : TagIndex :=
  let ti := { ti with particles := ti.particles.erase e }
  tags.foldl (fun ti tag => ti.removeTag e tag) ti

/-- `contains(entity)` -/
def contains (ti : TagIndex) (e : PId) : Bool := ti.particles.contains e

/-- `query(filter)`: no filter returns a copy of all members; `{and: ...}`
maps each tag to its array (or `[]`) and reduces with a membership filter —
`[].reduce` with no initial value throws, so the empty `and` list yields
`none`; `{or: ...}` concatenates the existing arrays in tag order. -/
def query (ti : TagIndex) : Filter → Option (List PId)
  | Filter.empty => some ti.particles
  | Filter.fAnd tags =>
      match tags.map (fun tag => (ti.getTag tag).getD []) with
      | [] => none
      | arr :: rest => some (rest.foldl (fun acc arr => acc.filter (fun p => arr.contains p)) arr)
  | Filter.fOr tags =>
      some (tags.foldl (fun acc tag => acc ++ (ti.getTag tag).getD []) [])

end TagIndex

/-- `BoundingBox` with its top/back/left corner at the origin (the source
constructor always sets `topBackLeft = (0,0,0)` and
`bottomFrontRight = (width, height, depth)`). -/
structure BoundingBox where
  width : ℚ
  height : ℚ
  depth : ℚ
deriving DecidableEq, Repr

namespace BoundingBox

/-- `getWidth()` = `bottomFrontRight.x − topBackLeft.x`. -/
def getWidth (b : BoundingBox) : ℚ := b.width

/-- `getHeight()` -/
def getHeight (b : BoundingBox) : ℚ := b.height

/-- `getDepth()` -/
def getDepth (b : BoundingBox) : ℚ := b.depth

/-- `contains(x, y, z)` / `containsVector(v)`: all coordinates between the
two corners, inclusive. -/
def containsVector (b : BoundingBox) (v : Vector3) : Bool :=
  decide (0 ≤ v.x ∧ 0 ≤ v.y ∧ 0 ≤ v.z ∧ v.x ≤ b.width ∧ v.y ≤ b.height ∧ v.z ≤ b.depth)

/-- `constrained(v)`: clamp each coordinate into the box. -/
def constrained (b : BoundingBox) (v : Vector3) : Vector3 :=
  ⟨max 0 (min b.width v.x), max 0 (min b.height v.y), max 0 (min b.depth v.z)⟩

end BoundingBox

/-- Replace the `i`-th element of a list by `f` of itself (used to model
in-place mutation of `this.cells[i]`); out-of-range indices leave the list
unchanged. -/
def listModify (l : List α) (i : Nat) (f : α → α) : List α :=
  match l.get? i with
  | some a => l.set i (f a)
  | none => l

/-- The spatial constraint of a query: `{ at: point, radius: cells }`. -/
structure SpatialQuery where
  at' : Vector3
  radius : Nat
deriving DecidableEq, Repr

/-- `SpatialGrid`: uniform cells over the bounded domain, one `TagIndex` per
cell plus a global index and the flat list of live particles. -/
structure SpatialGrid where
  bounds : BoundingBox
  cellSize : ℚ
  particles : List PId
  rows : Nat
  cols : Nat
  cells : List TagIndex
  globalTagIndex : TagIndex
deriving Repr

namespace SpatialGrid

/-- The `SpatialGrid` constructor: `rows = ceil((height + cellSize)/cellSize)`,
`cols = ceil((width + cellSize)/cellSize)`, `rows * cols` empty cells. -/
def create (bounds : BoundingBox) (cellSize : ℚ) : SpatialGrid :=
  let rows := (⌈(bounds.getHeight + cellSize) / cellSize⌉).toNat
  let cols := (⌈(bounds.getWidth + cellSize) / cellSize⌉).toNat
  { bounds := bounds
    cellSize := cellSize
    particles := []
    rows := rows
    cols := cols
    cells := List.replicate (rows * cols) TagIndex.empty
    globalTagIndex := TagIndex.empty }

/-- `hashPosition(pos)`: flat cell index `floor(y/cellSize) * cols +
floor(x/cellSize)`, or the sentinel `−1` when the column or row is outside
`[0, cols)` × `[0, rows)`. -/
def hashPosition (g : SpatialGrid) (pos : Vector3) : ℤ :=
  let col := ⌊pos.x / g.cellSize⌋
  let row := ⌊pos.y / g.cellSize⌋
  if col < 0 ∨ (g.cols : ℤ) ≤ col ∨ row < 0 ∨ (g.rows : ℤ) ≤ row then -1
  else row * (g.cols : ℤ) + col

/-- `getCell(col, row)` = `this.cells[col + row * this.cols]`. -/
def getCell (g : SpatialGrid) (col row : Nat) : Option TagIndex :=
  g.cells.get? (col + row * g.cols)

/-- `addParticle(particle)`: out-of-bounds positions are a hard error
(`none`); otherwise push onto the flat list and insert into the hashed
cell's index and the global index (an invalid hash would make the source
dereference `undefined`, also `none` here). -/
def addParticle (g : SpatialGrid) (pid : PId) (p : Particle) : Option SpatialGrid :=
  if ¬ g.bounds.containsVector p.position then none
  else
    let g1 := { g with particles := g.particles ++ [pid] }
    let idx := g1.hashPosition p.position
    if 0 ≤ idx ∧ idx.toNat < g1.cells.length then
      some { g1 with
              cells := listModify g1.cells idx.toNat (fun c => c.add pid p.tags)
              globalTagIndex := g1.globalTagIndex.add pid p.tags }
    else none

/-- `removeParticle(particle)` (grid part): remove from the hashed cell when
the index is valid, splice from the flat list, remove from the global index.
The source also calls `particle.detachSprings()`, which flags the particle's
springs for removal; that step is modelled at the system level where the
spring store lives. -/
def removeParticle (g : SpatialGrid) (pid : PId) (p : Particle) : SpatialGrid :=
  let idx := g.hashPosition p.position
  let g1 := if 0 ≤ idx then
      { g with cells := listModify g.cells idx.toNat (fun c => c.remove pid p.tags) }
    else g
  let g2 := { g1 with particles := g1.particles.erase pid }
  { g2 with globalTagIndex := g2.globalTagIndex.remove pid p.tags }

/-- `updateCell(particle, oldIndex)`: recompute the cell index; when it
changed, remove from the old cell (if valid) and add to the new (if valid). -/
def updateCell (g : SpatialGrid) (pid : PId) (p : Particle) (oldIndex : ℤ) : SpatialGrid :=
  let newIndex := g.hashPosition p.position
  if newIndex ≠ oldIndex then
    let g1 := if 0 ≤ oldIndex ∧ oldIndex.toNat < g.cells.length then
        { g with cells := listModify g.cells oldIndex.toNat (fun c => c.remove pid p.tags) }
      else g
    if 0 ≤ newIndex ∧ newIndex.toNat < g1.cells.length then
      { g1 with cells := listModify g1.cells newIndex.toNat (fun c => c.add pid p.tags) }
    else g1
  else g

/-- `addTag(particle, tag)`: index the new tag in the particle's current
cell (when valid) and in the global index. -/
def addTag (g : SpatialGrid) (pid : PId) (pos : Vector3) (tag : String) : SpatialGrid :=
  let idx := g.hashPosition pos
  let g1 := if 0 ≤ idx ∧ idx.toNat < g.cells.length then
      { g with cells := listModify g.cells idx.toNat (fun c => c.addTag pid tag) }
    else g
  { g1 with globalTagIndex := g1.globalTagIndex.addTag pid tag }

/-- `removeTag(particle, tag)` -/
def removeTag (g : SpatialGrid) (pid : PId) (pos : Vector3) (tag : String) : SpatialGrid :=
  let idx := g.hashPosition pos
  let g1 := if 0 ≤ idx ∧ idx.toNat < g.cells.length then
      { g with cells := listModify g.cells idx.toNat (fun c => c.removeTag pid tag) }
    else g
  { g1 with globalTagIndex := g1.globalTagIndex.removeTag pid tag }

/-- `query({tags, position})`: without a spatial constraint, query the
global index; with one, visit the square of cells of radius `radius` around
the cell containing `at` (outer loop over columns, inner over rows),
skipping out-of-range cells, and concatenate each visited cell's tag-query
result. -/
def query (g : SpatialGrid) (tags : Filter) (position : Option SpatialQuery) : Option (List PId) :=
  match position with
  | none => g.globalTagIndex.query tags
  | some q =>
      let cellX := ⌊q.at'.x / g.cellSize⌋
      let cellY := ⌊q.at'.y / g.cellSize⌋
      let r : ℤ := q.radius
      (List.range (2 * q.radius + 1)).foldlM (fun out i =>
        (List.range (2 * q.radius + 1)).foldlM (fun out j =>
          let x := cellX - r + (i : ℤ)
          let y := cellY - r + (j : ℤ)
          if 0 ≤ x ∧ x < (g.cols : ℤ) ∧ 0 ≤ y ∧ y < (g.rows : ℤ) then
            match g.cells.get? (x + y * (g.cols : ℤ)).toNat with
            | some cell => (cell.query tags).map (fun res => out ++ res)
            | none => none
          else some out) out) []

/-- Within-cell enumeration of the symmetric phase: all `i < j` index pairs
of the filtered member list, in loop order. -/
def sameCellPairs : List PId → List (PId × PId)
  | [] => []
  | a :: rest => rest.map (fun b => (a, b)) ++ sameCellPairs rest

/-- The pair invocations produced by one `_applySymmetricCell(interaction,
filter, cx1, cy1, cx2, cy2)` call: nothing when `(cx2, cy2)` is out of grid
bounds or either cell is missing; the `i < j` pairs of the filtered member
list when the two cells coincide; the full cross product otherwise.  `none`
models a filter whose query throws. -/
def cellPairCalls (g : SpatialGrid) (filter : Filter) (cx1 cy1 cx2 cy2 : ℤ) :
    Option (List (PId × PId)) :=
  if cx2 < 0 ∨ cy2 < 0 ∨ (g.cols : ℤ) ≤ cx2 ∨ (g.rows : ℤ) ≤ cy2 then some []
  else
    match g.getCell cx1.toNat cy1.toNat, g.getCell cx2.toNat cy2.toNat with
    | some cellA, some cellB => do
        let listA ← cellA.query filter
        let listB ← cellB.query filter
        if cx1 = cx2 ∧ cy1 = cy2 then some (sameCellPairs listA)
        else some (listA.flatMap (fun a => listB.map (fun b => (a, b))))
    | _, _ => some []

/-- All pair invocations of one registered symmetric interaction during the
behavior phase: for every grid cell `(cx, cy)` (outer loop over columns,
inner over rows), the within-cell call followed by the four forward
neighbor-offset calls `(cx+1,cy)`, `(cx+1,cy+1)`, `(cx,cy+1)`, `(cx−1,cy+1)`. -/
def symmetricCalls (g : SpatialGrid) (filter : Filter) : Option (List (PId × PId)) :=
  (List.range g.cols).foldlM (fun acc cx =>
    (List.range g.rows).foldlM (fun acc cy => do
      let l1 ← g.cellPairCalls filter cx cy cx cy
      let l2 ← g.cellPairCalls filter cx cy ((cx : ℤ) + 1) cy
      let l3 ← g.cellPairCalls filter cx cy ((cx : ℤ) + 1) ((cy : ℤ) + 1)
      let l4 ← g.cellPairCalls filter cx cy cx ((cy : ℤ) + 1)
      let l5 ← g.cellPairCalls filter cx cy ((cx : ℤ) - 1) ((cy : ℤ) + 1)
      some (acc ++ l1 ++ l2 ++ l3 ++ l4 ++ l5)) acc) []

end SpatialGrid

/-- A registered symmetric interaction.  Modelled from the spec (§2):
behavior and interaction callbacks "apply forces"; the callback is embedded
as the pair of forces it applies (via `applyForce`) to the two particles it
is invoked on, as the repository's `symmetricParticleForce` does. -/
structure SymInteraction where
  interaction : Particle → Particle → Vector3 × Vector3
  filter : Filter

/-- A registered one-way interaction.  Modelled from the spec (§2): embedded
as the force the callback applies to the particle it is invoked for, given
its list of neighbors. -/
structure Interaction where
  interaction : Particle → List Particle → Vector3
  filter : Filter
  neighborFilter : Filter

/-- A registered single-particle behavior.  Modelled from the spec (§2):
embedded as the force the callback applies to the particle. -/
structure Behavior where
  behavior : Particle → Vector3
  filter : Filter

/-- `ParticleSystem`: the orchestrator.  Particle and spring objects are
shared by reference in the source; here they live in the stores `store` /
`sstore`, and the queues and lists hold their ids.  `nextPid` / `nextSid`
model the allocation of fresh objects. -/
structure ParticleSystem where
  bounds : BoundingBox
  grid : SpatialGrid
  maxParticles : Nat
  maxDensity : ℚ
  maxForce : ℚ
  store : PId → Particle
  nextPid : PId
  particleCreationQueue : List PId
  sstore : SId → Spring
  nextSid : SId
  springs : List SId
  springCreationQueue : List SId
  behaviors : List Behavior
  interactions : List Interaction
  symmetricInteractions : List SymInteraction

namespace ParticleSystem

/-- The `ParticleSystem` constructor (defaults: `maxParticles = 1000`,
`maxDensity = 0.1`, `maxForce = −1` meaning no cap). -/
def create (bounds : BoundingBox) (cellSize : ℚ) (maxParticles : Nat) (maxDensity : ℚ) :
    ParticleSystem :=
  { bounds := bounds
    grid := SpatialGrid.create bounds cellSize
    maxParticles := maxParticles
    maxDensity := maxDensity
    maxForce := -1
    store := fun _ => Particle.new Vector3.zero
    nextPid := 0
    particleCreationQueue := []
    sstore := fun _ => ⟨0, 0, 0, 0, false⟩
    nextSid := 0
    springs := []
    springCreationQueue := []
    behaviors := []
    interactions := []
    symmetricInteractions := [] }

/-- Phase 3, `updateSprings()`: every active spring applies its force pair,
in list order. -/
def updateSprings (sqrtFn : ℚ → ℚ) (s : ParticleSystem) : ParticleSystem :=
  { s with store := s.springs.foldl (fun st sid => (s.sstore sid).update sqrtFn st) s.store }

/-- One-way interactions: for each registration, query the self filter
globally, and for each match query the neighbor filter within a 1-cell
radius of its position, exclude the particle itself, and apply the
interaction's force. -/
def runInteractions (s : ParticleSystem) (st0 : PId → Particle) : Option (PId → Particle) :=
  s.interactions.foldlM (fun st reg => do
    let ps ← s.grid.query reg.filter none
    ps.foldlM (fun st pid => do
      let neighbors ← s.grid.query reg.neighborFilter (some ⟨(st pid).position, 1⟩)
      let neighbors := neighbors.filter (fun n => n != pid)
      some (updStore st pid (fun p => p.applyForce (reg.interaction (st pid) (neighbors.map st))))) st) st0

/-- Symmetric interactions: apply each registration's force pair along its
invocation sequence (`SpatialGrid.symmetricCalls`). -/
def runSymmetricInteractions (s : ParticleSystem) (st0 : PId → Particle) :
    Option (PId → Particle) :=
  s.symmetricInteractions.foldlM (fun st reg => do
    let calls ← s.grid.symmetricCalls reg.filter
    some (calls.foldl (fun st ab =>
      let fs := reg.interaction (st ab.1) (st ab.2)
      let st := updStore st ab.1 (fun p => p.applyForce fs.1)
      updStore st ab.2 (fun p => p.applyForce fs.2)) st)) st0

/-- Single-particle behaviors: query each registration's filter globally and
apply its force to every match. -/
def runBehaviors (s : ParticleSystem) (st0 : PId → Particle) : Option (PId → Particle) :=
  s.behaviors.foldlM (fun st reg => do
    let ps ← s.grid.query reg.filter none
    some (ps.foldl (fun st pid => updStore st pid (fun p => p.applyForce (reg.behavior (st pid)))) st)) st0

/-- Phase 4, `updateBehaviors()`: one-way interactions, then symmetric
interactions, then single-particle behaviors. -/
def updateBehaviors (s : ParticleSystem) : Option ParticleSystem := do
  let st ← s.runInteractions s.store
  let st ← s.runSymmetricInteractions st
  let st ← s.runBehaviors st
  some { s with store := st }

/-- One iteration of the phase-5 loop body: capture the current cell index,
integrate the particle, then `updateCell` with the captured index. -/
def stepParticle (sqrtFn : ℚ → ℚ) (maxForce : ℚ) (acc : (PId → Particle) × SpatialGrid)
    (pid : PId) : (PId → Particle) × SpatialGrid :=
  let oldCell := acc.2.hashPosition (acc.1 pid).position
  let p := (acc.1 pid).update sqrtFn maxForce
  let st := updStore acc.1 pid (fun _ => p)
  (st, acc.2.updateCell pid p oldCell)

/-- Phase 5, `updateParticles()`: run the integration/re-bucketing step for
every particle of the flat list. -/
def updateParticles (sqrtFn : ℚ → ℚ) (s : ParticleSystem) : ParticleSystem :=
  let res := s.grid.particles.foldl (stepParticle sqrtFn s.maxForce) (s.store, s.grid)
  { s with store := res.1, grid := res.2 }

/-- Phase 6, `cleanUpParticles()`: remove every flagged particle via the grid
(which also flags the particle's springs for removal), then remove every
flagged spring from the active list and detach it from both endpoints. -/
def cleanUpParticles (s : ParticleSystem) : Option ParticleSystem := do
  let all ← s.grid.query Filter.empty none
  let toRemove := all.filter (fun pid => (s.store pid).shouldRemove)
  let gsst := toRemove.foldl (fun (acc : SpatialGrid × (SId → Spring)) pid =>
      let p := s.store pid
      (acc.1.removeParticle pid p,
       p.connections.foldl
         (fun sst sid => updStore sst sid (fun sp => { sp with removeFlag := true })) acc.2))
    (s.grid, s.sstore)
  let s1 := { s with grid := gsst.1, sstore := gsst.2 }
  let flagged := s1.springs.filter (fun sid => (s1.sstore sid).shouldRemove)
  let final := flagged.foldl (fun (acc : List SId × (PId → Particle)) sid =>
      let sp := s1.sstore sid
      (acc.1.erase sid,
       updStore (updStore acc.2 sp.particle1 (fun p => p.removeSpring sid)) sp.particle2
         (fun p => p.removeSpring sid)))
    (s1.springs, s1.store)
  some { s1 with springs := final.1, store := final.2 }

/-- `update()`, the tick: commit queued particles and springs, update
springs, run behaviors/interactions, integrate and re-bucket, clean up. -/
def update (sqrtFn : ℚ → ℚ) (s : ParticleSystem) : Option ParticleSystem := do
  let g ← s.particleCreationQueue.foldlM (fun g pid => g.addParticle pid (s.store pid)) s.grid
  let s := { s with grid := g, particleCreationQueue := [] }
  let s := { s with springs := s.springs ++ s.springCreationQueue, springCreationQueue := [] }
  let s := s.updateSprings sqrtFn
  let s ← s.updateBehaviors
  let s := s.updateParticles sqrtFn
  s.cleanUpParticles

/-- `query(options)` — delegate to the grid. -/
def query (s : ParticleSystem) (tags : Filter) (position : Option SpatialQuery) :
    Option (List PId) :=
  s.grid.query tags position

/-- `getDensity(pos)`: `1` outside the bounds (blocking creation), else the
containing cell's member count divided by `cellSize²`.  For an in-bounds
position of a well-formed grid the cell lookup cannot miss (the source would
dereference `undefined` otherwise); the embedding returns `1` there too. -/
def getDensity (s : ParticleSystem) (pos : Vector3) : ℚ :=
  if ¬ s.bounds.containsVector pos then 1
  else
    let col := ⌊pos.x / s.grid.cellSize⌋.toNat
    let row := ⌊pos.y / s.grid.cellSize⌋.toNat
    match s.grid.getCell col row with
    | some cell => (cell.particles.length : ℚ) / s.grid.cellSize ^ 2
    | none => 1

/-- `checkPosition(pos, maxPerCell = 1)`: population below the cap, density
below the global cap, density below the per-call cap. -/
def checkPosition (s : ParticleSystem) (pos : Vector3) (maxPerCell : ℚ) : Bool :=
  let dens := s.getDensity pos
  decide (s.grid.particles.length < s.maxParticles) && decide (dens < s.maxDensity) &&
    decide (dens < maxPerCell)

/-- `createParticle(pos, allowOutside = false)`: when admitted, construct the
particle at the bounds-clamped position, queue it for the next tick's commit
and return it; otherwise return the rejected result (`none`) and change
nothing.  `createParticle` always calls `checkPosition` with the default
per-call cap `1`. -/
def createParticle (s : ParticleSystem) (pos : Vector3) (allowOutside : Bool) :
    Option PId × ParticleSystem :=
  if allowOutside || s.checkPosition pos 1 then
    let pid := s.nextPid
    let p := Particle.new (s.bounds.constrained pos)
    (some pid,
     { s with
        nextPid := pid + 1
        store := updStore s.store pid (fun _ => p)
        particleCreationQueue := s.particleCreationQueue ++ [pid] })
  else (none, s)

/-- `createSpring(a, b, restLength, k)`: allocate the spring, queue it for
the next tick, and push it onto both endpoints' connection lists. -/
def createSpring (s : ParticleSystem) (a b : PId) (restLength k : ℚ) :
    SId × ParticleSystem :=
  let sid := s.nextSid
  let sp : Spring := ⟨a, b, restLength, k, false⟩
  let s := { s with
              sstore := updStore s.sstore sid (fun _ => sp)
              nextSid := sid + 1
              springCreationQueue := s.springCreationQueue ++ [sid] }
  let s := { s with store := updStore s.store a (fun p => p.addConnection sid) }
  (sid, { s with store := updStore s.store b (fun p => p.addConnection sid) })

/-- `system.addTag(particle, tag)` — delegate to the grid, which indexes the
tag in the particle's current cell and in the global index. -/
def addTag (s : ParticleSystem) (pid : PId) (tag : String) : ParticleSystem :=
  { s with grid := s.grid.addTag pid (s.store pid).position tag }

/-- `Particle.addTag(tag)`: add the tag to the particle's set, then notify
the owning system, which synchronizes the indices. -/
def addParticleTag (s : ParticleSystem) (pid : PId) (tag : String) : ParticleSystem :=
  let s1 := { s with store := updStore s.store pid (fun p =>
      { p with tags := if tag ∈ p.tags then p.tags else p.tags ++ [tag] }) }
  s1.addTag pid tag

/-- `Spring.remove()` on a spring shared with the system: set (or, for
stating flag-insensitivity, clear) the removal flag in the spring store. -/
def setSpringFlag (s : ParticleSystem) (sid : SId) (b : Bool) : ParticleSystem :=
  { s with sstore := updStore s.sstore sid (fun sp => { sp with removeFlag := b }) }

/-- `Particle.setRemoveFlag(flag)` on a particle shared with the system. -/
def setParticleRemoveFlag (s : ParticleSystem) (pid : PId) (b : Bool) : ParticleSystem :=
  { s with store := updStore s.store pid (fun p => { p with removeFlag := b }) }

end ParticleSystem

/-! ### Shared lemmas about grid and store transformations -/

/-- Invariant preservation along `List.foldlM` over `Option`. -/
theorem foldlM_option_inv {α β : Type} (P : β → Prop) (f : β → α → Option β) (l : List α)
    (b b' : β) (h : l.foldlM f b = some b') (hb : P b)
    (hf : ∀ acc x, x ∈ l → P acc → ∀ acc', f acc x = some acc' → P acc') : P b' := by
  induction l generalizing b with
  | nil => cases h; exact hb
  | cons x xs ih =>
      rw [List.foldlM_cons] at h
      rw [show (bind : Option β → (β → Option β) → Option β) = Option.bind from rfl,
        Option.bind_eq_some'] at h
      obtain ⟨b1, hb1, h⟩ := h
      exact ih b1 h (hf b x (List.mem_cons_self x xs) hb b1 hb1)
        (fun acc y hy => hf acc y (List.mem_cons_of_mem x hy))

/-- `addTag` leaves the membership list unchanged. -/
theorem TagIndex.addTag_particles (ti : TagIndex) (e : PId) (t : String) :
    (ti.addTag e t).particles = ti.particles := rfl

/-- `removeTag` leaves the membership list unchanged. -/
theorem TagIndex.removeTag_particles (ti : TagIndex) (e : PId) (t : String) :
    (ti.removeTag e t).particles = ti.particles := rfl

/-- A fold of `addTag` calls never changes the membership list. -/
theorem TagIndex.foldl_addTag_particles (ti : TagIndex) (e : PId) (tags : List String) :
    (tags.foldl (fun ti tag => ti.addTag e tag) ti).particles = ti.particles := by
  induction tags generalizing ti with
  | nil => rfl
  | cons t ts ih => exact ih (ti.addTag e t)

/-- A fold of `removeTag` calls never changes the membership list. -/
theorem TagIndex.foldl_removeTag_particles (ti : TagIndex) (e : PId) (tags : List String) :
    (tags.foldl (fun ti tag => ti.removeTag e tag) ti).particles = ti.particles := by
  induction tags generalizing ti with
  | nil => rfl
  | cons t ts ih => exact ih (ti.removeTag e t)

/-- `add` appends the entity to the membership list. -/
theorem TagIndex.add_particles (ti : TagIndex) (e : PId) (tags : List String) :
    (ti.add e tags).particles = ti.particles ++ [e] := by
  unfold TagIndex.add
  rw [TagIndex.foldl_addTag_particles]

/-- `remove` erases the entity from the membership list. -/
theorem TagIndex.remove_particles (ti : TagIndex) (e : PId) (tags : List String) :
    (ti.remove e tags).particles = ti.particles.erase e := by
  unfold TagIndex.remove
  rw [TagIndex.foldl_removeTag_particles]

/-- The empty filter returns the membership list. -/
theorem TagIndex.query_empty (ti : TagIndex) : ti.query Filter.empty = some ti.particles := rfl

/-- `listModify` preserves the length. -/
theorem listModify_length {α : Type} (l : List α) (i : Nat) (f : α → α) :
    (listModify l i f).length = l.length := by
  unfold listModify
  split <;> simp [List.length_set]

/-- `updateCell` only rewrites the cell array, keeping its length. -/
theorem SpatialGrid.updateCell_cells (g : SpatialGrid) (pid : PId) (p : Particle)
    (old : ℤ) :
    ∃ cl, g.updateCell pid p old = { g with cells := cl } ∧
      cl.length = g.cells.length := by
  unfold SpatialGrid.updateCell
  dsimp only
  split
  · split <;> split
    · exact ⟨_, rfl, by simp [listModify_length]⟩
    · exact ⟨_, rfl, by simp [listModify_length]⟩
    · exact ⟨_, rfl, by simp [listModify_length]⟩
    · exact ⟨g.cells, rfl, rfl⟩
  · exact ⟨g.cells, rfl, rfl⟩

/-- The store transformations of the force phases only rewrite the force
accumulator: every other particle field is untouched. -/
def forcesOnly (st st' : PId → Particle) : Prop :=
  ∀ pid, st' pid = { st pid with forces := (st' pid).forces }

/-- `forcesOnly` is reflexive. -/
theorem forcesOnly_refl (st : PId → Particle) : forcesOnly st st := fun _ => rfl

/-- `forcesOnly` is transitive. -/
theorem forcesOnly_trans {st st' st'' : PId → Particle} (h1 : forcesOnly st st')
    (h2 : forcesOnly st' st'') : forcesOnly st st'' := by
  intro pid
  rw [h2 pid, h1 pid]

/-- `applyForce` changes only the accumulator. -/
theorem applyForce_forcesOnly (st : PId → Particle) (i : PId) (f : Vector3) :
    forcesOnly st (updStore st i (fun p => p.applyForce f)) := by
  intro pid
  unfold updStore
  by_cases h : pid = i
  · rw [if_pos h, h]
    unfold Particle.applyForce
    dsimp only
    by_cases hs : (st i).staticBody
    · rw [if_pos hs]
    · rw [if_neg hs]
  · rw [if_neg h]

/-- `Spring.update` changes only force accumulators. -/
theorem spring_update_forcesOnly (sqrtFn : ℚ → ℚ) (sp : Spring) (st : PId → Particle) :
    forcesOnly st (Spring.update sqrtFn sp st) := by
  unfold Spring.update
  exact forcesOnly_trans (applyForce_forcesOnly st sp.particle1 _)
    (applyForce_forcesOnly _ sp.particle2 _)

/-- The constraint phase changes only force accumulators. -/
theorem updateSprings_forcesOnly (sqrtFn : ℚ → ℚ) (s : ParticleSystem) :
    forcesOnly s.store (s.updateSprings sqrtFn).store := by
  unfold ParticleSystem.updateSprings
  simp only
  generalize s.store = st0
  induction s.springs generalizing st0 with
  | nil => exact forcesOnly_refl st0
  | cons sp rest ih =>
      exact forcesOnly_trans (spring_update_forcesOnly sqrtFn (s.sstore sp) st0) (ih _)

/-- A fold of force applications changes only force accumulators. -/
theorem foldl_applyForce_forcesOnly {α : Type} (l : List α) (st0 : PId → Particle)
    (pidOf : (PId → Particle) → α → PId) (fOf : (PId → Particle) → α → Vector3) :
    forcesOnly st0
      (l.foldl (fun st x => updStore st (pidOf st x) (fun p => p.applyForce (fOf st x))) st0) := by
  induction l generalizing st0 with
  | nil => exact forcesOnly_refl st0
  | cons x xs ih =>
      exact forcesOnly_trans (applyForce_forcesOnly st0 _ _) (ih _)

/-- The one-way interaction phase changes only force accumulators. -/
theorem runInteractions_forcesOnly (s : ParticleSystem) (st0 st' : PId → Particle)
    (h : s.runInteractions st0 = some st') : forcesOnly st0 st' := by
  unfold ParticleSystem.runInteractions at h
  refine foldlM_option_inv (forcesOnly st0) _ _ _ _ h (forcesOnly_refl _) ?_
  intro acc reg _ hacc acc' hacc'
  simp only [bind, Option.bind_eq_some'] at hacc'
  obtain ⟨ps, -, hacc'⟩ := hacc'
  refine foldlM_option_inv (forcesOnly st0) _ _ _ _ hacc' hacc ?_
  intro st pid _ hst st2 hst2
  simp only [bind, Option.bind_eq_some'] at hst2
  obtain ⟨nb, -, hst2⟩ := hst2
  rw [← Option.some_inj.mp hst2]
  exact forcesOnly_trans hst (applyForce_forcesOnly st pid _)

/-- The symmetric interaction phase changes only force accumulators. -/
theorem runSymmetric_forcesOnly (s : ParticleSystem) (st0 st' : PId → Particle)
    (h : s.runSymmetricInteractions st0 = some st') : forcesOnly st0 st' := by
  unfold ParticleSystem.runSymmetricInteractions at h
  refine foldlM_option_inv (forcesOnly st0) _ _ _ _ h (forcesOnly_refl _) ?_
  intro acc reg _ hacc acc' hacc'
  simp only [bind, Option.bind_eq_some'] at hacc'
  obtain ⟨calls, -, hacc'⟩ := hacc'
  rw [← Option.some_inj.mp hacc']
  clear hacc'
  induction calls generalizing acc with
  | nil => exact hacc
  | cons ab rest ih =>
      refine ih _ ?_
      exact forcesOnly_trans hacc
        (forcesOnly_trans (applyForce_forcesOnly acc ab.1 _) (applyForce_forcesOnly _ ab.2 _))

/-- The single-particle behavior phase changes only force accumulators. -/
theorem runBehaviors_forcesOnly (s : ParticleSystem) (st0 st' : PId → Particle)
    (h : s.runBehaviors st0 = some st') : forcesOnly st0 st' := by
  unfold ParticleSystem.runBehaviors at h
  refine foldlM_option_inv (forcesOnly st0) _ _ _ _ h (forcesOnly_refl _) ?_
  intro acc reg _ hacc acc' hacc'
  simp only [bind, Option.bind_eq_some'] at hacc'
  obtain ⟨ps, -, hacc'⟩ := hacc'
  rw [← Option.some_inj.mp hacc']
  clear hacc'
  induction ps generalizing acc with
  | nil => exact hacc
  | cons pid rest ih =>
      exact ih _ (forcesOnly_trans hacc (applyForce_forcesOnly acc pid _))

/-- The behavior phase as a whole changes only force accumulators. -/
theorem updateBehaviors_forcesOnly (s s' : ParticleSystem) (h : s.updateBehaviors = some s') :
    forcesOnly s.store s'.store := by
  unfold ParticleSystem.updateBehaviors at h
  simp only [bind, Option.bind_eq_some'] at h
  obtain ⟨st1, h1, st2, h2, st3, h3, h⟩ := h
  have e1 := runInteractions_forcesOnly s _ _ h1
  have e2 := runSymmetric_forcesOnly s _ _ h2
  have e3 := runBehaviors_forcesOnly s _ _ h3
  have : s'.store = st3 := by rw [← Option.some_inj.mp h]
  rw [this]
  exact forcesOnly_trans (forcesOnly_trans e1 e2) e3


/-! ### Lemmas used by the deferred-creation and bucket-invariant claims -/

/-- `find?` over a first-component-preserving map commutes with the map. -/
theorem find?_fst_map_eq {β : Type} (f : String × β → String × β)
    (hf : ∀ kv, (f kv).1 = kv.1) (l : List (String × β)) (t : String) :
    (l.map f).find? (fun kv => kv.1 = t) = (l.find? (fun kv => kv.1 = t)).map f := by
  induction l with
  | nil => rfl
  | cons kv rest ih =>
      by_cases h : kv.1 = t
      · rw [List.map_cons, List.find?_cons_of_pos _ (by simp [hf kv, h]),
          List.find?_cons_of_pos _ (by simp [h])]
        rfl
      · rw [List.map_cons, List.find?_cons_of_neg _ (by simp [hf kv, h]),
          List.find?_cons_of_neg _ (by simp [h]), ih]

/-- After `addTag`, the tag's array exists and contains the entity. -/
theorem TagIndex.getTag_addTag_self (ti : TagIndex) (e : PId) (t : String) :
    ∃ arr, (ti.addTag e t).getTag t = some arr ∧ e ∈ arr := by
  show ∃ arr,
      (((if (ti.getTag t).isSome then ti.tagIndex else ti.tagIndex ++ [(t, [])]).map
          (fun kv => if kv.1 = t then (kv.1, if e ∈ kv.2 then kv.2 else kv.2 ++ [e]) else kv)).find?
          (fun kv => kv.1 = t)).map (fun kv => kv.2) = some arr ∧ e ∈ arr
  rw [find?_fst_map_eq _ (fun kv => by split <;> rfl)]
  by_cases hk : (ti.getTag t).isSome
  · rw [if_pos hk]
    obtain ⟨arr, harr⟩ := Option.isSome_iff_exists.mp hk
    obtain ⟨kv, hkv, hkv2⟩ := Option.map_eq_some'.mp harr
    rw [hkv]
    have hfst : kv.1 = t := by simpa using List.find?_some hkv
    refine ⟨_, rfl, ?_⟩
    dsimp only
    rw [if_pos hfst]
    dsimp only
    by_cases he : e ∈ kv.2
    · rw [if_pos he]; exact he
    · rw [if_neg he]; exact List.mem_append_right _ (List.mem_singleton.mpr rfl)
  · rw [if_neg hk]
    have hnone : ti.tagIndex.find? (fun kv => kv.1 = t) = none := by
      cases hfind : ti.tagIndex.find? (fun kv => kv.1 = t) with
      | none => rfl
      | some kv =>
          exfalso
          apply hk
          show (Option.map _ _).isSome = true
          rw [hfind]
          rfl
    rw [List.find?_append, hnone, Option.none_or]
    rw [List.find?_cons_of_pos _ (by simp)]
    refine ⟨_, rfl, ?_⟩
    dsimp only
    rw [if_pos rfl]
    simp

/-- Everything a spatial query returns lies in some cell's query result. -/
theorem SpatialGrid.query_spatial_sound (g : SpatialGrid) (tags : Filter) (qp : SpatialQuery)
    (l : List PId) (h : g.query tags (some qp) = some l) (x : PId) (hx : x ∈ l) :
    ∃ c lc, c ∈ g.cells ∧ c.query tags = some lc ∧ x ∈ lc := by
  unfold SpatialGrid.query at h
  refine foldlM_option_inv
    (fun out => ∀ y ∈ out, ∃ c lc, c ∈ g.cells ∧ c.query tags = some lc ∧ y ∈ lc)
    _ _ _ _ h (by simp) ?_ x hx
  intro acc i _ hacc acc' hacc'
  refine foldlM_option_inv
    (fun out => ∀ y ∈ out, ∃ c lc, c ∈ g.cells ∧ c.query tags = some lc ∧ y ∈ lc)
    _ _ _ _ hacc' hacc ?_
  intro acc2 j _ hacc2 acc2' hacc2'
  dsimp only at hacc2'
  split at hacc2'
  · split at hacc2'
    · obtain ⟨lc, hlc, heq⟩ := Option.map_eq_some'.mp hacc2'
      subst heq
      intro y hy
      rcases List.mem_append.mp hy with hy | hy
      · exact hacc2 y hy
      · exact ⟨_, lc, List.get?_mem (by assumption), hlc, hy⟩
    · cases hacc2'
  · cases Option.some_inj.mp hacc2'
    exact hacc2

/-- Characterization of a successful `addParticle`. -/
theorem SpatialGrid.addParticle_eq (g : SpatialGrid) (pid : PId) (p : Particle)
    (g' : SpatialGrid) (h : g.addParticle pid p = some g') :
    g.bounds.containsVector p.position = true ∧
      0 ≤ g.hashPosition p.position ∧
      (g.hashPosition p.position).toNat < g.cells.length ∧
      g' = { g with
              particles := g.particles ++ [pid]
              cells := listModify g.cells (g.hashPosition p.position).toNat
                (fun c => c.add pid p.tags)
              globalTagIndex := g.globalTagIndex.add pid p.tags } := by
  unfold SpatialGrid.addParticle at h
  split at h
  · cases h
  · rename_i hin
    dsimp only at h
    split at h
    · rename_i hvalid
      refine ⟨by simpa using hin, hvalid.1, hvalid.2, ?_⟩
      exact (Option.some_inj.mp h).symm
    · cases h

/-- Membership in the global index survives the commit loop and covers the
queued ids. -/
theorem commit_mem (queue : List PId) (st : PId → Particle) (g g' : SpatialGrid)
    (h : queue.foldlM (fun g q => g.addParticle q (st q)) g = some g')
    (pid : PId) (hq : pid ∈ queue ∨ pid ∈ g.globalTagIndex.particles) :
    pid ∈ g'.globalTagIndex.particles := by
  induction queue generalizing g with
  | nil =>
      cases h
      rcases hq with hq | hq
      · cases hq
      · exact hq
  | cons q rest ih =>
      rw [List.foldlM_cons,
        show (bind : Option SpatialGrid → (SpatialGrid → Option SpatialGrid) → Option SpatialGrid)
          = Option.bind from rfl, Option.bind_eq_some'] at h
      obtain ⟨g1, hg1, h⟩ := h
      obtain ⟨-, -, -, hg1eq⟩ := SpatialGrid.addParticle_eq g q (st q) g1 hg1
      have hglobal : g1.globalTagIndex.particles = g.globalTagIndex.particles ++ [q] := by
        rw [hg1eq]
        exact TagIndex.add_particles _ _ _
      refine ih g1 h ?_
      rcases hq with hq | hq
      · rcases List.mem_cons.mp hq with rfl | hq
        · right
          rw [hglobal]
          exact List.mem_append_right _ (List.mem_singleton.mpr rfl)
        · left; exact hq
      · right
        rw [hglobal]
        exact List.mem_append_left _ hq

/-- `Particle.update` does not touch the removal flag. -/
theorem Particle.update_removeFlag (sqrtFn : ℚ → ℚ) (p : Particle) (mf : ℚ) :
    (p.update sqrtFn mf).removeFlag = p.removeFlag := rfl

/-- `Particle.update` does not touch the tag set. -/
theorem Particle.update_tags (sqrtFn : ℚ → ℚ) (p : Particle) (mf : ℚ) :
    (p.update sqrtFn mf).tags = p.tags := rfl

/-- The integration phase leaves the flat particle list, the global index,
the grid geometry and the per-particle removal flags unchanged. -/
theorem updateParticles_fields (sqrtFn : ℚ → ℚ) (s : ParticleSystem) :
    (s.updateParticles sqrtFn).grid.particles = s.grid.particles ∧
      (s.updateParticles sqrtFn).grid.globalTagIndex = s.grid.globalTagIndex ∧
      (s.updateParticles sqrtFn).grid.cols = s.grid.cols ∧
      (s.updateParticles sqrtFn).grid.rows = s.grid.rows ∧
      (s.updateParticles sqrtFn).grid.cellSize = s.grid.cellSize ∧
      (s.updateParticles sqrtFn).grid.cells.length = s.grid.cells.length ∧
      (∀ pid, ((s.updateParticles sqrtFn).store pid).removeFlag
        = (s.store pid).removeFlag) := by
  unfold ParticleSystem.updateParticles
  dsimp only
  suffices hgen : ∀ (l : List PId) (st : PId → Particle) (g : SpatialGrid),
      (l.foldl (ParticleSystem.stepParticle sqrtFn s.maxForce) (st, g)).2.particles
          = g.particles ∧
        (l.foldl (ParticleSystem.stepParticle sqrtFn s.maxForce) (st, g)).2.globalTagIndex
          = g.globalTagIndex ∧
        (l.foldl (ParticleSystem.stepParticle sqrtFn s.maxForce) (st, g)).2.cols = g.cols ∧
        (l.foldl (ParticleSystem.stepParticle sqrtFn s.maxForce) (st, g)).2.rows = g.rows ∧
        (l.foldl (ParticleSystem.stepParticle sqrtFn s.maxForce) (st, g)).2.cellSize
          = g.cellSize ∧
        (l.foldl (ParticleSystem.stepParticle sqrtFn s.maxForce) (st, g)).2.cells.length
          = g.cells.length ∧
        (∀ pid, ((l.foldl (ParticleSystem.stepParticle sqrtFn s.maxForce) (st, g)).1 pid).removeFlag
          = (st pid).removeFlag) by
    exact hgen s.grid.particles s.store s.grid
  intro l
  induction l with
  | nil => exact fun st g => ⟨rfl, rfl, rfl, rfl, rfl, rfl, fun _ => rfl⟩
  | cons q rest ih =>
      intro st g
      rw [List.foldl_cons]
      have hfq : ParticleSystem.stepParticle sqrtFn s.maxForce (st, g) q
          = (updStore st q (fun _ => (st q).update sqrtFn s.maxForce),
             g.updateCell q ((st q).update sqrtFn s.maxForce)
               (g.hashPosition (st q).position)) := rfl
      rw [hfq]
      have hstep := ih (updStore st q
        (fun _ => (st q).update sqrtFn s.maxForce))
        (g.updateCell q ((st q).update sqrtFn s.maxForce)
          (g.hashPosition (st q).position))
      obtain ⟨cl, hcl, hcllen⟩ := SpatialGrid.updateCell_cells g q
        ((st q).update sqrtFn s.maxForce) (g.hashPosition (st q).position)
      refine ⟨?_, ?_, ?_, ?_, ?_, ?_, ?_⟩
      · rw [hstep.1, hcl]
      · rw [hstep.2.1, hcl]
      · rw [hstep.2.2.1, hcl]
      · rw [hstep.2.2.2.1, hcl]
      · rw [hstep.2.2.2.2.1, hcl]
      · rw [hstep.2.2.2.2.2.1, hcl]
        exact hcllen
      · intro pid
        rw [hstep.2.2.2.2.2.2 pid]
        unfold updStore
        by_cases hq : pid = q
        · rw [if_pos hq, hq, Particle.update_removeFlag]
        · rw [if_neg hq]

/-- `removeParticle` erases the entity from the global membership list (its
only effect on the global index's membership). -/
theorem SpatialGrid.removeParticle_global (g : SpatialGrid) (q : PId) (p : Particle) :
    (g.removeParticle q p).globalTagIndex.particles
      = g.globalTagIndex.particles.erase q := by
  unfold SpatialGrid.removeParticle
  dsimp only
  rw [TagIndex.remove_particles]
  congr 1
  split <;> rfl

/-- An unflagged member of the global index survives cleanup. -/
theorem cleanUp_keeps_unflagged (s s' : ParticleSystem) (h : s.cleanUpParticles = some s')
    (pid : PId) (hflag : (s.store pid).removeFlag = false)
    (hg : pid ∈ s.grid.globalTagIndex.particles) :
    pid ∈ s'.grid.globalTagIndex.particles := by
  unfold ParticleSystem.cleanUpParticles at h
  simp only [SpatialGrid.query, TagIndex.query, bind, Option.some_bind',
    Option.some_inj] at h
  subst h
  dsimp only
  suffices hgen : ∀ (l : List PId) (g : SpatialGrid) (sst : SId → Spring),
      (∀ q ∈ l, (s.store q).shouldRemove = true) →
      pid ∈ g.globalTagIndex.particles →
      pid ∈ (l.foldl (fun (acc : SpatialGrid × (SId → Spring)) q =>
          (acc.1.removeParticle q (s.store q),
           (s.store q).connections.foldl
             (fun sst sid => updStore sst sid (fun sp => { sp with removeFlag := true })) acc.2))
        (g, sst)).1.globalTagIndex.particles by
    exact hgen _ s.grid s.sstore
      (fun q hq => (List.mem_filter.mp hq).2) hg
  intro l
  induction l with
  | nil => exact fun g sst _ hmem => hmem
  | cons q rest ih =>
      intro g sst hall hmem
      refine ih _ _ (fun r hr => hall r (List.mem_cons_of_mem q hr)) ?_
      have hne : pid ≠ q := by
        intro heq
        have := hall q (List.mem_cons_self q rest)
        rw [← heq] at this
        unfold Particle.shouldRemove at this
        rw [hflag] at this
        cases this
      rw [SpatialGrid.removeParticle_global]
      exact (List.mem_erase_of_ne hne).mpr hmem

/-- `createParticle` never touches the grid. -/
theorem createParticle_grid (s : ParticleSystem) (pos : Vector3) (ao : Bool) :
    ((s.createParticle pos ao).2).grid = s.grid := by
  unfold ParticleSystem.createParticle
  split <;> rfl

/-- A successful `createParticle` allocates `nextPid`, stores a fresh
particle at the clamped position and appends the id to the creation queue. -/
theorem createParticle_some_eq (s : ParticleSystem) (pos : Vector3) (pid : PId)
    (h : (s.createParticle pos false).1 = some pid) :
    pid = s.nextPid ∧
      (s.createParticle pos false).2 = { s with
        nextPid := pid + 1
        store := updStore s.store pid (fun _ => Particle.new (s.bounds.constrained pos))
        particleCreationQueue := s.particleCreationQueue ++ [pid] } := by
  unfold ParticleSystem.createParticle at h ⊢
  by_cases hcond : (false || s.checkPosition pos 1) = true
  · rw [if_pos hcond] at h ⊢
    obtain rfl := Option.some_inj.mp h
    exact ⟨rfl, rfl⟩
  · rw [if_neg hcond] at h
    cases h

/-- `SpatialGrid.addTag` maps the global index through `TagIndex.addTag`. -/
theorem SpatialGrid.addTag_global (g : SpatialGrid) (pid : PId) (pos : Vector3)
    (t : String) :
    (g.addTag pid pos t).globalTagIndex = g.globalTagIndex.addTag pid t := by
  unfold SpatialGrid.addTag
  dsimp only
  split <;> rfl

/-- `SpatialGrid.addTag` leaves the flat particle list unchanged. -/
theorem SpatialGrid.addTag_flat (g : SpatialGrid) (pid : PId) (pos : Vector3)
    (t : String) :
    (g.addTag pid pos t).particles = g.particles := by
  unfold SpatialGrid.addTag
  dsimp only
  split <;> rfl

/-- Members of a modified list: untouched elements or the image of the
modified slot. -/
theorem mem_listModify {α : Type} (l : List α) (i : Nat) (f : α → α) (c : α)
    (hc : c ∈ listModify l i f) : c ∈ l ∨ ∃ a, l.get? i = some a ∧ c = f a := by
  unfold listModify at hc
  cases hg : l.get? i with
  | none => rw [hg] at hc; exact Or.inl hc
  | some a =>
      rw [hg] at hc
      rcases List.mem_or_eq_of_mem_set hc with h | h
      · exact Or.inl h
      · exact Or.inr ⟨a, rfl, h⟩

/-- Cells after `SpatialGrid.addTag` have the same membership lists as cells
of the original grid. -/
theorem SpatialGrid.addTag_cells_particles (g : SpatialGrid) (pid : PId) (pos : Vector3)
    (t : String) (c' : TagIndex) (hc : c' ∈ (g.addTag pid pos t).cells) :
    ∃ c ∈ g.cells, c'.particles = c.particles := by
  unfold SpatialGrid.addTag at hc
  dsimp only at hc
  split at hc
  · rcases mem_listModify _ _ _ _ hc with h | ⟨a, ha, rfl⟩
    · exact ⟨c', h, rfl⟩
    · exact ⟨a, List.get?_mem ha, TagIndex.addTag_particles a pid t⟩
  · exact ⟨c', hc, rfl⟩

/-- `addParticleTag` does not touch the creation queue. -/
theorem addParticleTag_queue (s : ParticleSystem) (pid : PId) (t : String) :
    (s.addParticleTag pid t).particleCreationQueue = s.particleCreationQueue := rfl

/-- `addParticleTag` preserves every particle's removal flag. -/
theorem addParticleTag_removeFlag (s : ParticleSystem) (pid : PId) (t : String) (j : PId) :
    ((s.addParticleTag pid t).store j).removeFlag = (s.store j).removeFlag := by
  unfold ParticleSystem.addParticleTag ParticleSystem.addTag updStore
  dsimp only
  by_cases h : j = pid
  · rw [if_pos h]
  · rw [if_neg h]

/-! ### Basic lemmas about the tag index -/

/-- Tags used by concrete witnesses and counterexamples. -/
def tagA : String := "a"

/-- Second concrete tag. -/
def tagB : String := "b"

/-- The `or`-query is the concatenation (in tag order) of the tags' member
arrays. -/
theorem TagIndex.query_fOr_eq (ti : TagIndex) (ts : List String) :
    ti.query (Filter.fOr ts) = some ((ts.map (fun t => (ti.getTag t).getD [])).flatten) := by
  show some _ = some _
  congr 1
  suffices h : ∀ acc : List PId,
      ts.foldl (fun acc tag => acc ++ (ti.getTag tag).getD []) acc
        = acc ++ (ts.map (fun t => (ti.getTag t).getD [])).flatten by
    simpa using h []
  induction ts with
  | nil => intro acc; simp
  | cons t ts ih => intro acc; simp [ih, List.append_assoc]

/-- Occurrence count in a concatenation of duplicate-free blocks: one per
block containing the element. -/
theorem count_flatten_map {α β : Type} [DecidableEq α] [DecidableEq β]
    (f : β → List α) (ts : List β) (e : α) (h1 : ∀ t ∈ ts, (f t).Nodup) :
    ((ts.map f).flatten).count e = ts.countP (fun t => decide (e ∈ f t)) := by
  induction ts with
  | nil => simp
  | cons t ts ih =>
      have ht : (f t).Nodup := h1 t (List.mem_cons_self t ts)
      have ih' := ih (fun u hu => h1 u (List.mem_cons_of_mem t hu))
      simp only [List.map_cons, List.flatten_cons, List.count_append, ih', List.countP_cons]
      by_cases he : e ∈ f t
      · rw [List.count_eq_one_of_mem ht he]; simp [he]; omega
      · rw [List.count_eq_zero_of_not_mem he]; simp [he]

/-! ### Claim C8 -/

/-- Concrete input refuting claim C8: on an index holding one entity, the
malformed filter `{and: []}` makes `query` reduce an empty array with no
initial value — a thrown `TypeError` (`none`), surfaced to the caller
instead of a returned result. -/
theorem c8_counterexample : (TagIndex.empty.add 0 []).query (Filter.fAnd []) = none := rfl

/-- **C8** (amended): for every `TagIndex`, a query with the malformed
filter `{and: []}` deterministically throws (models the `TypeError` from
`[].reduce` with no initial value); the error is surfaced to the caller
rather than any result being returned. -/
theorem c8_empty_and_filter_throws (ti : TagIndex) : ti.query (Filter.fAnd []) = none := rfl

/-! ### Claim C2 -/

/-- Concrete input refuting claim C2: an entity carrying both requested tags
appears twice in the result of `query {or: [a, b]}` — the union is a naive
concatenation, not deduplicated. -/
theorem c2_counterexample :
    (((TagIndex.empty.add 0 [tagA, tagB]).query (Filter.fOr [tagA, tagB])).map
      (fun l => l.count 0)) = some 2 := by decide

/-- **C2** (amended): for every `TagIndex` whose per-tag member arrays are
duplicate-free (as `addTag` maintains), `query {or: [tags...]}` returns the
concatenation of the listed tags' member arrays: an entity belongs to the
result iff it carries at least one requested tag, but it appears once per
requested tag that it carries (so an entity with several of the requested
tags is returned multiple times, not exactly once). -/
theorem c2_or_query_concatenates (ti : TagIndex) (ts : List String) (e : PId)
    (hnd : ∀ t ∈ ts, ((ti.getTag t).getD []).Nodup) :
    ∃ l, ti.query (Filter.fOr ts) = some l ∧
      (e ∈ l ↔ ∃ t ∈ ts, e ∈ (ti.getTag t).getD []) ∧
      l.count e = ts.countP (fun t => decide (e ∈ (ti.getTag t).getD [])) := by
  refine ⟨_, ti.query_fOr_eq ts, ?_, ?_⟩
  · simp only [List.mem_flatten, List.mem_map]
    constructor
    · rintro ⟨l, ⟨t, ht, rfl⟩, he⟩
      exact ⟨t, ht, he⟩
    · rintro ⟨t, ht, he⟩
      exact ⟨_, ⟨t, ht, rfl⟩, he⟩
  · exact count_flatten_map _ ts e hnd

/-- Witness for C2's amended theorem at a concrete index: entity 0 carries
tags `a` and `b`; the or-query over both returns it twice (`countP` = 2),
and membership matches carrying at least one requested tag. -/
theorem c2_witness :
    ∃ l, ((TagIndex.empty.add 0 [tagA, tagB]).query (Filter.fOr [tagA, tagB])) = some l ∧
      (0 ∈ l ↔ ∃ t ∈ [tagA, tagB],
        0 ∈ (((TagIndex.empty.add 0 [tagA, tagB]).getTag t).getD [])) ∧
      l.count 0 = [tagA, tagB].countP
        (fun t => decide (0 ∈ (((TagIndex.empty.add 0 [tagA, tagB]).getTag t).getD []))) :=
  c2_or_query_concatenates (TagIndex.empty.add 0 [tagA, tagB]) [tagA, tagB] 0 (by decide)

/-! ### Claim C3 -/

/-- Concrete input refuting claim C3: a particle whose accumulated force is
`(0, 0, 1)` (unit mass, cap 5): after `update(5)` the force accumulator is
not the zero vector — only its `x` and `y` components are reset, the `z`
component survives. -/
theorem c3_counterexample :
    (({ Particle.new ⟨0, 0, 0⟩ with forces := ⟨0, 0, 1⟩ } : Particle).update id 5).forces ≠
      Vector3.zero := by with_unfolding_all decide

/-- **C3** (amended): for a non-negative cap, `update(maxForce)` clamps the
accumulated force vector's magnitude to the cap *before* dividing by mass
(the clamp `limit` is applied to `forces` and its result divided by `mass`),
adds the result to the velocity, resets only the `x` and `y` components of
the force accumulator (the `z` component keeps the clamped, mass-divided
value), then adds the new velocity to the position and increments the life
counter. -/
theorem c3_integration_pipeline (sqrtFn : ℚ → ℚ) (p : Particle) (maxForce : ℚ)
    (h : 0 ≤ maxForce) :
    (p.update sqrtFn maxForce).velocity
        = p.velocity.addVector ((p.forces.limit sqrtFn maxForce).div p.mass) ∧
      (p.update sqrtFn maxForce).forces
        = ⟨0, 0, ((p.forces.limit sqrtFn maxForce).div p.mass).z⟩ ∧
      (p.update sqrtFn maxForce).position
        = p.position.addVector
            (p.velocity.addVector ((p.forces.limit sqrtFn maxForce).div p.mass)) ∧
      (p.update sqrtFn maxForce).life = p.life + 1 := by
  refine ⟨?_, ?_, ?_, ?_⟩ <;> simp [Particle.update, Particle.flushForces, h]

/-- Witness for C3's amended theorem: the particle with force accumulator
`(0, 0, 1)`, cap 5 (not exceeded, `sqrtFn = id` is exact at the magnitudes
reached). -/
theorem c3_witness :
    (0 : ℚ) ≤ 5 ∧
      ((({ Particle.new ⟨0, 0, 0⟩ with forces := ⟨0, 0, 1⟩ } : Particle).update id 5).velocity
        = Vector3.addVector (Particle.new ⟨0, 0, 0⟩).velocity
            ((Vector3.limit id ⟨0, 0, 1⟩ 5).div 1)) :=
  ⟨by norm_num,
    (c3_integration_pipeline id { Particle.new ⟨0, 0, 0⟩ with forces := ⟨0, 0, 1⟩ } 5
      (by norm_num)).1⟩

/-! ### Claim C9 -/

/-- **C9** (confirmed): a spring whose endpoints coincide applies no force:
with the zero-guarded normalization (`Vector3.normalize`, modelled from the
spec's §7 requirement), `Spring.update` leaves the particle store unchanged,
so nothing non-finite reaches any force accumulator, velocity or position.
The hypothesis `sqrtFn 0 = 0` pins the square-root parameter at the only
value reached. -/
theorem c9_degenerate_spring_noop (sqrtFn : ℚ → ℚ) (sp : Spring) (st : PId → Particle)
    (hpos : (st sp.particle1).position = (st sp.particle2).position)
    (hsqrt : sqrtFn 0 = 0) :
    Spring.update sqrtFn sp st = st := by
  have hdelta : Vector3.sub (st sp.particle1).position (st sp.particle2).position
      = ⟨0, 0, 0⟩ := by
    rw [hpos]; simp [Vector3.sub]
  funext j
  simp [Spring.update, hdelta, Vector3.normalize, Vector3.magnitude, Vector3.magSq,
    Vector3.mult, Vector3.div, Particle.applyForce, Vector3.addVector, updStore, hsqrt]

/-- Witness for C9 at a concrete degenerate spring: both endpoints at
`(3, 3, 0)`, rest length 7, stiffness 2 — the store is unchanged. -/
theorem c9_witness :
    Spring.update id ⟨0, 1, 7, 2, false⟩ (fun _ => Particle.new ⟨3, 3, 0⟩)
      = fun _ => Particle.new ⟨3, 3, 0⟩ :=
  c9_degenerate_spring_noop id ⟨0, 1, 7, 2, false⟩ (fun _ => Particle.new ⟨3, 3, 0⟩) rfl rfl

/-! ### Claim C6 -/

/-- `checkPosition` is the conjunction of the population cap, the global
density cap and the per-call density cap. -/
theorem checkPosition_eq_true_iff (s : ParticleSystem) (pos : Vector3) (cap : ℚ) :
    (s.checkPosition pos cap = true) ↔
      (s.grid.particles.length < s.maxParticles ∧ s.getDensity pos < s.maxDensity ∧
        s.getDensity pos < cap) := by
  simp [ParticleSystem.checkPosition, Bool.and_eq_true, decide_eq_true_eq, and_assoc]

/-- **C6** (confirmed): `createParticle(pos, allowOutside = false)` admits a
particle iff the live population is below `maxParticles`, the containing
cell's density (member count / cellSize², per `getDensity`) is below
`maxDensity`, and that density is below the per-call cap (`1` on this path);
an out-of-bounds position has density `1` and is therefore refused (no error
is raised — the refusal is the `none` result); every refused request leaves
the system unchanged (nothing is queued). -/
theorem c6_admission_control (s : ParticleSystem) (pos : Vector3) :
    ((s.createParticle pos false).1.isSome ↔
      (s.grid.particles.length < s.maxParticles ∧
        s.getDensity pos < s.maxDensity ∧ s.getDensity pos < 1)) ∧
    (s.bounds.containsVector pos = false →
      s.getDensity pos = 1 ∧ (s.createParticle pos false).1 = none) ∧
    ((s.createParticle pos false).1 = none → (s.createParticle pos false).2 = s) := by
  have hiff := checkPosition_eq_true_iff s pos 1
  refine ⟨?_, fun hout => ?_, fun hnone => ?_⟩
  · simp only [ParticleSystem.createParticle, Bool.false_or]
    by_cases h : s.checkPosition pos 1
    · rw [if_pos h]
      simpa using hiff.1 h
    · rw [if_neg h]
      simp only [Option.isSome_none, Bool.false_eq_true, false_iff]
      exact fun hc => h (hiff.2 hc)
  · have hd : s.getDensity pos = 1 := by
      simp [ParticleSystem.getDensity, hout]
    refine ⟨hd, ?_⟩
    have h : ¬ (s.checkPosition pos 1 = true) := by
      rw [hiff, hd]
      rintro ⟨-, -, hlt⟩
      exact lt_irrefl 1 hlt
    simp [ParticleSystem.createParticle, Bool.false_or, h]
  · by_cases h : s.checkPosition pos 1
    · exfalso
      simp [ParticleSystem.createParticle, Bool.false_or, h] at hnone
    · simp [ParticleSystem.createParticle, Bool.false_or, h]

/-- Concrete system shared by witnesses: a 10×10 domain, cell size 10,
population cap 1000, density cap 0.1. -/
def csys : ParticleSystem := ParticleSystem.create ⟨10, 10, 0⟩ 10 1000 (1/10)

/-- Witness for C6 at the concrete system and the out-of-bounds position
`(11, 0, 0)`: density 1 and the request is refused. -/
theorem c6_witness :
    csys.getDensity ⟨11, 0, 0⟩ = 1 ∧ (csys.createParticle ⟨11, 0, 0⟩ false).1 = none :=
  (c6_admission_control csys ⟨11, 0, 0⟩).2.1 (by with_unfolding_all decide)

/-! ### Claim C4 -/

/-- `Spring.update` never reads the removal flag. -/
theorem spring_update_flag_irrel (sqrtFn : ℚ → ℚ) (sp : Spring) (b : Bool)
    (st : PId → Particle) :
    Spring.update sqrtFn { sp with removeFlag := b } st = Spring.update sqrtFn sp st := rfl

/-- Option-bind destructuring of the behavior phase: it only replaces the
particle store. -/
theorem updateBehaviors_eq (s s' : ParticleSystem) (h : s.updateBehaviors = some s') :
    ∃ st, s' = { s with store := st } := by
  unfold ParticleSystem.updateBehaviors at h
  simp only [bind, Option.bind_eq_some'] at h
  obtain ⟨st1, h1, st2, h2, st3, h3, h⟩ := h
  exact ⟨st3, (Option.some_inj.mp h).symm⟩

/-- Splitting a successful tick into its phases. -/
theorem update_destruct (sqrtFn : ℚ → ℚ) (s s' : ParticleSystem)
    (h : s.update sqrtFn = some s') :
    ∃ g1 s4,
      s.particleCreationQueue.foldlM (fun g pid => g.addParticle pid (s.store pid)) s.grid
          = some g1 ∧
      (({ s with
            grid := g1
            particleCreationQueue := []
            springs := s.springs ++ s.springCreationQueue
            springCreationQueue := [] } : ParticleSystem).updateSprings sqrtFn).updateBehaviors
          = some s4 ∧
      (s4.updateParticles sqrtFn).cleanUpParticles = some s' := by
  unfold ParticleSystem.update at h
  simp only [bind, Option.bind_eq_some'] at h
  obtain ⟨g1, hc, s4, hb, h⟩ := h
  exact ⟨g1, s4, hc, hb, h⟩

/-- The flat fold of removals in the spring-cleanup loop acts on the spring
list as iterated `erase`, i.e. as `List.diff`. -/
theorem foldl_erase_fst {β : Type} (flagged : List SId) (g : (List SId × β) → SId → β)
    (init : List SId × β) :
    (flagged.foldl (fun acc sid => (acc.1.erase sid, g acc sid)) init).1
      = init.1.diff flagged := by
  rw [List.diff_eq_foldl]
  induction flagged generalizing init with
  | nil => rfl
  | cons sid rest ih => simpa using ih (init.1.erase sid, g init sid)

/-- The particle-removal loop only ever sets spring removal flags: a flag
that is true stays true. -/
theorem detach_fold_flag_monotone (l : List PId) (f : PId → List SId)
    (acc : SpatialGrid × (SId → Spring)) (h : SpatialGrid → PId → SpatialGrid) (sid : SId)
    (hflag : (acc.2 sid).removeFlag = true) :
    (((l.foldl (fun acc pid =>
        (h acc.1 pid,
         (f pid).foldl
           (fun sst c => updStore sst c (fun sp => { sp with removeFlag := true })) acc.2))
      acc).2) sid).removeFlag = true := by
  induction l generalizing acc with
  | nil => exact hflag
  | cons pid rest ih =>
      refine ih _ ?_
      have inner : ∀ (conns : List SId) (sst : SId → Spring),
          (sst sid).removeFlag = true →
          ((conns.foldl
              (fun sst c => updStore sst c (fun sp => { sp with removeFlag := true })) sst)
            sid).removeFlag = true := by
        intro conns
        induction conns with
        | nil => exact fun sst h => h
        | cons c rest ih2 =>
            intro sst hsst
            refine ih2 _ ?_
            by_cases hc : sid = c <;> simp [updStore, hc, hsst]
      exact inner (f pid) acc.2 hflag

/-- Cleanup removes a flagged spring from the active list (with a
duplicate-free active list, as distinct spring allocations guarantee). -/
theorem cleanUp_removes_flagged (s s' : ParticleSystem) (h : s.cleanUpParticles = some s')
    (sid : SId) (hmem : sid ∈ s.springs) (hflag : (s.sstore sid).removeFlag = true)
    (hnd : s.springs.Nodup) : sid ∉ s'.springs := by
  unfold ParticleSystem.cleanUpParticles at h
  simp only [SpatialGrid.query, TagIndex.query, bind, Option.some_bind',
    Option.some_inj] at h
  subst h
  simp only
  rw [foldl_erase_fst]
  rw [List.Nodup.mem_diff_iff hnd]
  rintro ⟨-, habs⟩
  apply habs
  rw [List.mem_filter]
  refine ⟨hmem, ?_⟩
  exact detach_fold_flag_monotone
    (s.grid.globalTagIndex.particles.filter (fun pid => (s.store pid).shouldRemove))
    (fun pid => (s.store pid).connections) (s.grid, s.sstore)
    (fun g pid => g.removeParticle pid (s.store pid)) sid hflag

/-- **C4** (amended): a constraint whose removal flag is already set when a
tick begins still acts in that tick — the constraint phase applies exactly
the same forces as it would with the flag cleared — and it is collected at
that same tick's cleanup, disappearing from the active list (so it applies
no force in any later tick). -/
theorem c4_flagged_spring_still_acts (sqrtFn : ℚ → ℚ) (s : ParticleSystem) (sid : SId)
    (hmem : sid ∈ s.springs ++ s.springCreationQueue)
    (hflag : (s.sstore sid).removeFlag = true)
    (hnd : (s.springs ++ s.springCreationQueue).Nodup)
    (s' : ParticleSystem) (h : s.update sqrtFn = some s') :
    ((s.updateSprings sqrtFn).store = ((s.setSpringFlag sid false).updateSprings sqrtFn).store) ∧
      sid ∉ s'.springs := by
  constructor
  · show s.springs.foldl (fun st sid' => Spring.update sqrtFn (s.sstore sid') st) s.store
        = s.springs.foldl (fun st sid' =>
            Spring.update sqrtFn
              (updStore s.sstore sid (fun sp => { sp with removeFlag := false }) sid') st) s.store
    refine List.foldl_ext _ _ s.store (fun st sid' _ => ?_)
    by_cases hs : sid' = sid
    · subst hs
      simp only [updStore, if_pos rfl]
      exact (spring_update_flag_irrel sqrtFn (s.sstore sid') false st).symm
    · simp [updStore, hs]
  · obtain ⟨g1, s4, hcommit, hbeh, hclean⟩ := update_destruct sqrtFn s s' h
    obtain ⟨st4, hs4⟩ := updateBehaviors_eq _ s4 hbeh
    have hsprings : (s4.updateParticles sqrtFn).springs = s.springs ++ s.springCreationQueue := by
      rw [hs4]; rfl
    have hsstore : (s4.updateParticles sqrtFn).sstore = s.sstore := by
      rw [hs4]; rfl
    refine cleanUp_removes_flagged _ s' hclean sid ?_ ?_ ?_
    · rw [hsprings]; exact hmem
    · rw [hsstore]; exact hflag
    · rw [hsprings]; exact hnd

/-- Two particles at `(1,0,0)` and `(2,0,0)` joined by a spring of rest
length 3 and stiffness 1 (still queued for commit). -/
def c4base : ParticleSystem :=
  (((((ParticleSystem.create ⟨10, 10, 0⟩ 10 1000 (1/10)).createParticle ⟨1, 0, 0⟩ false).2
    ).createParticle ⟨2, 0, 0⟩ false).2.createSpring 0 1 3 1).2

/-- `c4base` with the spring's removal flag already set before the tick. -/
def c4sys : ParticleSystem := c4base.setSpringFlag 0 true

/-- Concrete input refuting claim C4: the spring is flagged for removal
before the tick; the tick collects it (the active list ends empty) and yet
the spring applied its force during that same tick — particle 0's velocity
after the tick is `(-2, 0, 0)`, not zero (no other force source exists in
this system; `id` agrees with the real square root at the reached magnitude
`1`). -/
theorem c4_counterexample :
    (c4sys.sstore 0).removeFlag = true ∧
      (c4sys.update id).map (fun s => (s.springs, (s.store 0).velocity)) =
        some ([], ⟨-2, 0, 0⟩) := by
  constructor
  · rfl
  · with_unfolding_all decide

/-- The same system one (unflagged) tick later — the spring is now in the
active list — with the flag then set between ticks. -/
def c4mid : ParticleSystem := ((c4base.update id).getD c4base).setSpringFlag 0 true

/-- The state after `c4mid`'s tick. -/
def c4post : ParticleSystem := (c4mid.update id).getD c4mid

/-- Witness for C4's amended theorem at the concrete flagged system. -/
theorem c4_witness :
    ((c4mid.updateSprings id).store
        = ((c4mid.setSpringFlag 0 false).updateSprings id).store) ∧ 0 ∉ c4post.springs :=
  c4_flagged_spring_still_acts id c4mid 0 (by with_unfolding_all decide)
    (by with_unfolding_all decide) (by with_unfolding_all decide) c4post
    (by with_unfolding_all rfl)


/-! ### Claim C5 -/

/-- The constraint phase does not touch the grid. -/
theorem updateSprings_grid (sqrtFn : ℚ → ℚ) (s : ParticleSystem) :
    (s.updateSprings sqrtFn).grid = s.grid := rfl

/-- `forcesOnly` preserves removal flags. -/
theorem forcesOnly_removeFlag {st st' : PId → Particle} (h : forcesOnly st st') (j : PId) :
    (st' j).removeFlag = (st j).removeFlag := by rw [h j]

/-- `forcesOnly` preserves positions. -/
theorem forcesOnly_position {st st' : PId → Particle} (h : forcesOnly st st') (j : PId) :
    (st' j).position = (st j).position := by rw [h j]

/-- `forcesOnly` preserves tag sets. -/
theorem forcesOnly_tags {st st' : PId → Particle} (h : forcesOnly st st') (j : PId) :
    (st' j).tags = (st j).tags := by rw [h j]

/-- `addParticleTag` updates the grid through `SpatialGrid.addTag` at some
position. -/
theorem addParticleTag_grid_shape (u : ParticleSystem) (pid : PId) (tag : String) :
    ∃ P, (u.addParticleTag pid tag).grid = u.grid.addTag pid P tag := ⟨_, rfl⟩

/-- **C5** (amended): an entity created during tick N (queued, not yet
committed) is invisible to every query with an empty tag filter issued later
in tick N — global or spatial — even after tags are added to it; but adding
a tag immediately indexes it in the tag maps, so tag-filtered (`or`) queries
issued later in tick N already return it; from tick N+1 (after the commit
phase) it appears in the unfiltered global query as well. -/
theorem c5_deferred_creation (sqrtFn : ℚ → ℚ) (s : ParticleSystem) (pos : Vector3)
    (tag : String) (pid : PId)
    (hc : (s.createParticle pos false).1 = some pid)
    (hg : pid ∉ s.grid.globalTagIndex.particles)
    (hcells : ∀ c ∈ s.grid.cells, pid ∉ c.particles) :
    (∀ l, ((s.createParticle pos false).2.addParticleTag pid tag).query Filter.empty none
        = some l → pid ∉ l) ∧
      (∀ qp l, ((s.createParticle pos false).2.addParticleTag pid tag).query Filter.empty
          (some qp) = some l → pid ∉ l) ∧
      (∃ l, ((s.createParticle pos false).2.addParticleTag pid tag).query (Filter.fOr [tag])
          none = some l ∧ pid ∈ l) ∧
      (∀ s' l, ((s.createParticle pos false).2.addParticleTag pid tag).update sqrtFn
          = some s' → s'.query Filter.empty none = some l → pid ∈ l) := by
  obtain ⟨hpid, hs1⟩ := createParticle_some_eq s pos pid hc
  obtain ⟨P, hP⟩ := addParticleTag_grid_shape ((s.createParticle pos false).2) pid tag
  rw [createParticle_grid] at hP
  refine ⟨?_, ?_, ?_, ?_⟩
  · intro l hl
    have : ((s.createParticle pos false).2.addParticleTag pid tag).query Filter.empty none
        = some (((s.createParticle pos false).2.addParticleTag pid tag).grid.globalTagIndex.particles) :=
      rfl
    rw [this] at hl
    obtain rfl := Option.some_inj.mp hl
    rw [hP, SpatialGrid.addTag_global, TagIndex.addTag_particles]
    exact hg
  · intro qp l hl
    intro hmem
    obtain ⟨c', lc, hcmem, hcq, hplc⟩ :=
      SpatialGrid.query_spatial_sound _ Filter.empty qp l hl pid hmem
    rw [TagIndex.query_empty] at hcq
    obtain rfl := Option.some_inj.mp hcq
    rw [hP] at hcmem
    obtain ⟨c, hcmem0, hpart⟩ := SpatialGrid.addTag_cells_particles _ pid P tag c' hcmem
    rw [hpart] at hplc
    exact hcells c hcmem0 hplc
  · obtain ⟨arr, harr, hin⟩ :=
      TagIndex.getTag_addTag_self s.grid.globalTagIndex pid tag
    have hq : ((s.createParticle pos false).2.addParticleTag pid tag).query
        (Filter.fOr [tag]) none
        = ((s.createParticle pos false).2.addParticleTag pid tag).grid.globalTagIndex.query
          (Filter.fOr [tag]) := rfl
    refine ⟨_, by rw [hq, hP, SpatialGrid.addTag_global, TagIndex.query_fOr_eq], ?_⟩
    simp only [List.map_cons, List.map_nil, List.flatten_cons, List.flatten_nil,
      List.append_nil]
    rw [harr]
    simpa using hin
  · intro s' l hupd hq
    obtain ⟨g1, s4, hcommit, hbeh, hclean⟩ := update_destruct sqrtFn _ s' hupd
    -- the freshly created id is committed into the global index
    have hqueue : ((s.createParticle pos false).2.addParticleTag pid tag).particleCreationQueue
        = s.particleCreationQueue ++ [pid] := by
      rw [addParticleTag_queue, hs1]
    have hing1 : pid ∈ g1.globalTagIndex.particles := by
      refine commit_mem _ _ _ _ hcommit pid (Or.inl ?_)
      rw [hqueue]
      exact List.mem_append_right _ (List.mem_singleton.mpr rfl)
    -- the fresh particle is not flagged for removal, before or after the phases
    have hflag2 : (((s.createParticle pos false).2.addParticleTag pid tag).store pid).removeFlag
        = false := by
      rw [addParticleTag_removeFlag, hs1]
      dsimp only
      rw [updStore, if_pos rfl]
      rfl
    obtain ⟨st4, hs4⟩ := updateBehaviors_eq _ s4 hbeh
    have hflag4 : (s4.store pid).removeFlag = false := by
      rw [forcesOnly_removeFlag (updateBehaviors_forcesOnly _ s4 hbeh) pid,
        forcesOnly_removeFlag (updateSprings_forcesOnly sqrtFn _) pid]
      exact hflag2
    have hfields := updateParticles_fields sqrtFn s4
    have hflag5 : ((s4.updateParticles sqrtFn).store pid).removeFlag = false := by
      rw [hfields.2.2.2.2.2.2 pid]
      exact hflag4
    have hg4 : s4.grid = g1 := by rw [hs4]; rfl
    have hing5 : pid ∈ (s4.updateParticles sqrtFn).grid.globalTagIndex.particles := by
      rw [hfields.2.1, hg4]
      exact hing1
    have hfinal := cleanUp_keeps_unflagged _ s' hclean pid hflag5 hing5
    have : s'.query Filter.empty none = some s'.grid.globalTagIndex.particles := rfl
    rw [this] at hq
    obtain rfl := Option.some_inj.mp hq
    exact hfinal

/-- The concrete system of the C5 scenario: one particle created at
`(5, 5, 0)` during the current tick, then tagged `a` before the commit. -/
def c5sys : ParticleSystem := ((csys.createParticle ⟨5, 5, 0⟩ false).2).addParticleTag 0 tagA

/-- Concrete input refuting claim C5: the entity created this tick is still
only queued (the grid's flat list is empty), yet after `addTag` the
tag-filtered query `{or: [a]}` issued in the same tick already returns it. -/
theorem c5_counterexample :
    c5sys.grid.particles = [] ∧ c5sys.particleCreationQueue = [0] ∧
      c5sys.query (Filter.fOr [tagA]) none = some [0] := by
  refine ⟨?_, ?_, ?_⟩ <;> with_unfolding_all decide

/-- Witness for C5's amended theorem at the concrete scenario. -/
theorem c5_witness :
    (∀ l, ((csys.createParticle ⟨5, 5, 0⟩ false).2.addParticleTag 0 tagA).query Filter.empty
        none = some l → 0 ∉ l) ∧
      (∀ qp l, ((csys.createParticle ⟨5, 5, 0⟩ false).2.addParticleTag 0 tagA).query
          Filter.empty (some qp) = some l → 0 ∉ l) ∧
      (∃ l, ((csys.createParticle ⟨5, 5, 0⟩ false).2.addParticleTag 0 tagA).query
          (Filter.fOr [tagA]) none = some l ∧ 0 ∈ l) ∧
      (∀ s' l, ((csys.createParticle ⟨5, 5, 0⟩ false).2.addParticleTag 0 tagA).update id
          = some s' → s'.query Filter.empty none = some l → 0 ∈ l) :=
  c5_deferred_creation id csys ⟨5, 5, 0⟩ tagA 0 (by with_unfolding_all decide)
    (by with_unfolding_all decide) (by with_unfolding_all decide)

/-! ### Claim C10 -/

/-- `hashPosition` yields the sentinel or a nonnegative index. -/
theorem SpatialGrid.hash_cases (g : SpatialGrid) (pos : Vector3) :
    g.hashPosition pos = -1 ∨ 0 ≤ g.hashPosition pos := by
  unfold SpatialGrid.hashPosition
  dsimp only
  split
  · exact Or.inl rfl
  · rename_i hcond
    push_neg at hcond
    right
    have h1 : (0 : ℤ) ≤ ⌊pos.x / g.cellSize⌋ := hcond.1
    have h2 : (0 : ℤ) ≤ ⌊pos.y / g.cellSize⌋ := hcond.2.2.1
    have h3 : (0 : ℤ) ≤ (g.cols : ℤ) := Int.ofNat_nonneg _
    exact add_nonneg (mul_nonneg h2 h3) h1

/-- Pointwise description of `listModify`. -/
theorem get?_listModify {α : Type} (l : List α) (i : Nat) (f : α → α) (j : Nat) :
    (listModify l i f).get? j = if j = i then (l.get? j).map f else l.get? j := by
  unfold listModify
  cases hg : l.get? i with
  | none =>
      by_cases hj : j = i
      · rw [if_pos hj, hj, hg]; rfl
      · rw [if_neg hj]
  | some a =>
      by_cases hj : j = i
      · subst hj
        rw [if_pos rfl, List.get?_set_eq, hg]
        rfl
      · rw [if_neg hj, List.get?_set_ne _ _ (fun h => hj h.symm)]

/-- A tag lookup hands back one of the association list's entries. -/
theorem TagIndex.getTag_mem (c : TagIndex) (t : String) (arr : List PId)
    (h : c.getTag t = some arr) : ∃ kv, kv ∈ c.tagIndex ∧ kv.1 = t ∧ kv.2 = arr := by
  obtain ⟨kv, hkv, h2⟩ := Option.map_eq_some'.mp h
  exact ⟨kv, List.mem_of_find?_eq_some hkv, by simpa using List.find?_some hkv, h2⟩

/-- The and-reduce only ever filters the first tag's array. -/
theorem foldl_filter_subset (arrs : List (List PId)) (a : List PId) :
    (arrs.foldl (fun acc arr => acc.filter (fun p => arr.contains p)) a) ⊆ a := by
  induction arrs generalizing a with
  | nil => exact fun x hx => hx
  | cons arr rest ih =>
      intro x hx
      exact List.mem_of_mem_filter (ih (a.filter (fun p => arr.contains p)) hx)

/-- An entity absent from a `TagIndex`'s membership list and from all of its
tag arrays is absent from every query result. -/
theorem TagIndex.query_excludes (c : TagIndex) (pid : PId)
    (hpart : pid ∉ c.particles) (htag : ∀ t arr, c.getTag t = some arr → pid ∉ arr) :
    ∀ f lc, c.query f = some lc → pid ∉ lc := by
  intro f lc h
  cases f with
  | empty =>
      obtain rfl := Option.some_inj.mp h
      exact hpart
  | fAnd tags =>
      cases tags with
      | nil => cases h
      | cons t0 ts =>
          unfold TagIndex.query at h
          simp only [List.map_cons] at h
          obtain rfl := Option.some_inj.mp h
          intro hmem
          have hsub := foldl_filter_subset _ _ hmem
          cases hg : c.getTag t0 with
          | none => rw [hg] at hsub; cases hsub
          | some arr =>
              rw [hg] at hsub
              exact htag t0 arr hg hsub
  | fOr tags =>
      rw [TagIndex.query_fOr_eq] at h
      obtain rfl := Option.some_inj.mp h
      intro hmem
      obtain ⟨lx, hlx, hx⟩ := List.mem_flatten.mp hmem
      obtain ⟨t, -, rfl⟩ := List.mem_map.mp hlx
      cases hg : c.getTag t with
      | none => rw [hg] at hx; cases hx
      | some arr =>
          rw [hg] at hx
          exact htag t arr hg hx

/-- `removeTag` erases the entity from the named tag's array and leaves the
other lookups unchanged. -/
theorem TagIndex.getTag_removeTag (c : TagIndex) (e : PId) (t u : String) :
    (c.removeTag e t).getTag u
      = if u = t then (c.getTag u).map (fun arr => arr.erase e) else c.getTag u := by
  show (((c.tagIndex.map fun kv => if kv.1 = t then (kv.1, kv.2.erase e) else kv).find?
      (fun kv => kv.1 = u)).map (fun kv => kv.2)) = _
  rw [find?_fst_map_eq _ (fun kv => by split <;> rfl)]
  cases hfind : c.tagIndex.find? (fun kv => kv.1 = u) with
  | none =>
      have hnone : c.getTag u = none := by
        unfold TagIndex.getTag
        rw [hfind]
        rfl
      rw [hnone]
      split <;> rfl
  | some kv =>
      have hfst : kv.1 = u := by simpa using List.find?_some hfind
      have hget : c.getTag u = some kv.2 := by
        unfold TagIndex.getTag
        rw [hfind]
        rfl
      rw [hget]
      simp only [Option.map_some']
      by_cases hu : u = t
      · rw [if_pos hu, show (if kv.1 = t then (kv.1, kv.2.erase e) else kv) = (kv.1, kv.2.erase e)
          from if_pos (hfst.trans hu)]
      · rw [if_neg hu, show (if kv.1 = t then (kv.1, kv.2.erase e) else kv) = kv
          from if_neg (fun h => hu (hfst.symm.trans h))]

/-- Folding `removeTag` over a list that covers every tag array holding the
entity strips the entity from all arrays. -/
theorem TagIndex.remove_strips (c : TagIndex) (e : PId) (tags : List String)
    (hnodupT : ∀ t arr, c.getTag t = some arr → arr.Nodup)
    (htag : ∀ t arr, c.getTag t = some arr → e ∈ arr → t ∈ tags) :
    ∀ u arr, (tags.foldl (fun ti t => ti.removeTag e t) c).getTag u = some arr → e ∉ arr := by
  induction tags generalizing c with
  | nil =>
      intro u arr h hmem
      cases htag u arr h hmem
  | cons t0 rest ih =>
      intro u arr h
      refine ih (c.removeTag e t0) ?_ ?_ u arr h
      · intro t arr0 hget
        rw [TagIndex.getTag_removeTag] at hget
        by_cases ht : t = t0
        · rw [if_pos ht] at hget
          obtain ⟨arr1, harr1, rfl⟩ := Option.map_eq_some'.mp hget
          exact (hnodupT t arr1 harr1).erase e
        · rw [if_neg ht] at hget
          exact hnodupT t arr0 hget
      · intro t arr0 hget hmem
        rw [TagIndex.getTag_removeTag] at hget
        by_cases ht : t = t0
        · rw [if_pos ht] at hget
          obtain ⟨arr1, harr1, rfl⟩ := Option.map_eq_some'.mp hget
          exact absurd hmem ((hnodupT t arr1 harr1).not_mem_erase)
        · rw [if_neg ht] at hget
          rcases List.mem_cons.mp (htag t arr0 hget hmem) with h' | h'
          · exact absurd h' ht
          · exact h'

/-- `remove` leaves behind no trace of the entity when its recorded tags
cover every array holding it. -/
theorem TagIndex.remove_clean (c : TagIndex) (e : PId) (tags : List String)
    (hnodupP : c.particles.Nodup)
    (hnodupT : ∀ t arr, c.getTag t = some arr → arr.Nodup)
    (htag : ∀ t arr, c.getTag t = some arr → e ∈ arr → t ∈ tags) :
    e ∉ (c.remove e tags).particles ∧
      (∀ u arr, (c.remove e tags).getTag u = some arr → e ∉ arr) := by
  constructor
  · rw [TagIndex.remove_particles]
    exact hnodupP.not_mem_erase
  · unfold TagIndex.remove
    exact TagIndex.remove_strips _ e tags hnodupT htag

/-- Shape of `updateCell` when the new position hashes outside the grid:
the particle is removed from the (valid) old cell and added nowhere. -/
theorem SpatialGrid.updateCell_outside_eq (g : SpatialGrid) (pid : PId) (p' : Particle)
    (oi : ℤ) (hout : g.hashPosition p'.position = -1) :
    g.updateCell pid p' oi
      = if -1 ≠ oi then
          (if 0 ≤ oi ∧ oi.toNat < g.cells.length then
            { g with cells := listModify g.cells oi.toNat (fun c => c.remove pid p'.tags) }
          else g)
        else g := by
  unfold SpatialGrid.updateCell
  rw [hout]
  by_cases h1 : (-1 : ℤ) ≠ oi
  · rw [if_pos h1, if_pos h1]
    dsimp only
    have hneg : ∀ n : Nat, ¬((0 : ℤ) ≤ -1 ∧ Int.toNat (-1) < n) := by
      intro n h
      exact absurd h.1 (by norm_num)
    by_cases h2 : 0 ≤ oi ∧ oi.toNat < g.cells.length
    · rw [if_pos h2, if_neg (hneg _)]
    · rw [if_neg h2, if_neg (hneg _)]
  · rw [if_neg h1, if_neg h1]

/-- **C10** (confirmed): when integration moves a particle's position outside
the grid's cell range (`hashPosition` returns the sentinel `−1`), the
phase-5 step removes it from its previous cell and adds it to no cell: it is
afterwards in no cell's membership list or tag array, it remains in the flat
particle list and the global tag index, every spatial query misses it, the
unfiltered global query still returns it, and its removal flag is untouched.
The hypotheses state the grid/store well-formedness: the particle sits
exactly in the cell its position hashes to, cell member lists and tag arrays
are duplicate-free, and its tag-array entries are consistent with its cell
and tag set. -/
theorem c10_escaped_particle (sqrtFn : ℚ → ℚ) (mf : ℚ) (st : PId → Particle)
    (g : SpatialGrid) (pid : PId)
    (hout : g.hashPosition ((st pid).update sqrtFn mf).position = -1)
    (hbucket : ∀ i, (hi : i < g.cells.length) →
      (pid ∈ (g.cells.get ⟨i, hi⟩).particles ↔
        (i : ℤ) = g.hashPosition (st pid).position))
    (hnodupP : ∀ i, (hi : i < g.cells.length) → (g.cells.get ⟨i, hi⟩).particles.Nodup)
    (hnodupT : ∀ i, (hi : i < g.cells.length) →
      ∀ kv ∈ (g.cells.get ⟨i, hi⟩).tagIndex, kv.2.Nodup)
    (htags : ∀ i, (hi : i < g.cells.length) →
      ∀ kv ∈ (g.cells.get ⟨i, hi⟩).tagIndex, pid ∈ kv.2 →
        ((i : ℤ) = g.hashPosition (st pid).position ∧ kv.1 ∈ (st pid).tags))
    (hflat : pid ∈ g.particles) (hglobal : pid ∈ g.globalTagIndex.particles) :
    (∀ i c, (ParticleSystem.stepParticle sqrtFn mf (st, g) pid).2.cells.get? i = some c →
        pid ∉ c.particles ∧ ∀ t arr, c.getTag t = some arr → pid ∉ arr) ∧
      pid ∈ (ParticleSystem.stepParticle sqrtFn mf (st, g) pid).2.particles ∧
      pid ∈ (ParticleSystem.stepParticle sqrtFn mf (st, g) pid).2.globalTagIndex.particles ∧
      (∀ tags qp l,
        (ParticleSystem.stepParticle sqrtFn mf (st, g) pid).2.query tags (some qp) = some l →
          pid ∉ l) ∧
      (∀ l, (ParticleSystem.stepParticle sqrtFn mf (st, g) pid).2.query Filter.empty none
          = some l → pid ∈ l) ∧
      ((ParticleSystem.stepParticle sqrtFn mf (st, g) pid).1 pid).removeFlag
        = (st pid).removeFlag := by
  have hg2 : (ParticleSystem.stepParticle sqrtFn mf (st, g) pid).2
      = g.updateCell pid ((st pid).update sqrtFn mf)
        (g.hashPosition (st pid).position) := rfl
  have hbucket' : ∀ i c, g.cells.get? i = some c →
      (pid ∈ c.particles ↔ (i : ℤ) = g.hashPosition (st pid).position) := by
    intro i c hc
    obtain ⟨hi, hci⟩ := List.get?_eq_some.mp hc
    exact hci ▸ hbucket i hi
  have htags' : ∀ i c, g.cells.get? i = some c → ∀ kv ∈ c.tagIndex, pid ∈ kv.2 →
      ((i : ℤ) = g.hashPosition (st pid).position ∧ kv.1 ∈ (st pid).tags) := by
    intro i c hc
    obtain ⟨hi, hci⟩ := List.get?_eq_some.mp hc
    exact hci ▸ htags i hi
  -- the central fact: after the step, the particle is in no cell at all
  have hcells : ∀ i c,
      (ParticleSystem.stepParticle sqrtFn mf (st, g) pid).2.cells.get? i = some c →
      pid ∉ c.particles ∧ ∀ t arr, c.getTag t = some arr → pid ∉ arr := by
    rw [hg2, SpatialGrid.updateCell_outside_eq _ _ _ _ hout]
    set oi := g.hashPosition (st pid).position with hoi
    by_cases h1 : (-1 : ℤ) ≠ oi
    · rw [if_pos h1]
      by_cases h2 : 0 ≤ oi ∧ oi.toNat < g.cells.length
      · rw [if_pos h2]
        intro i c hc
        dsimp only at hc
        rw [get?_listModify] at hc
        by_cases hio : i = oi.toNat
        · rw [if_pos hio] at hc
          obtain ⟨c0, hc0, rfl⟩ := Option.map_eq_some'.mp hc
          have hup_tags : ((st pid).update sqrtFn mf).tags = (st pid).tags :=
            Particle.update_tags sqrtFn (st pid) mf
          have hioZ : (i : ℤ) = oi := by omega
          refine TagIndex.remove_clean c0 pid ((st pid).update sqrtFn mf).tags ?_ ?_ ?_
          · obtain ⟨hi, hci⟩ := List.get?_eq_some.mp hc0
            exact hci ▸ hnodupP i hi
          · intro t arr hget
            obtain ⟨kv, hkv, -, rfl⟩ := TagIndex.getTag_mem c0 t arr hget
            obtain ⟨hi, hci⟩ := List.get?_eq_some.mp hc0
            exact hnodupT i hi kv (hci ▸ hkv)
          · intro t arr hget hmem
            obtain ⟨kv, hkv, hfst, h2'⟩ := TagIndex.getTag_mem c0 t arr hget
            rw [hup_tags]
            have := htags' i c0 hc0 kv hkv (by rw [h2']; exact hmem)
            rw [← hfst]
            exact this.2
        · rw [if_neg hio] at hc
          constructor
          · intro hmem
            have := (hbucket' i c hc).mp hmem
            omega
          · intro t arr hget hmem
            obtain ⟨kv, hkv, -, rfl⟩ := TagIndex.getTag_mem c t arr hget
            have := (htags' i c hc kv hkv hmem).1
            omega
      · rw [if_neg h2]
        intro i c hc
        constructor
        · intro hmem
          have := (hbucket' i c hc).mp hmem
          have hilen : i < g.cells.length := (List.get?_eq_some.mp hc).1
          omega
        · intro t arr hget hmem
          obtain ⟨kv, hkv, -, rfl⟩ := TagIndex.getTag_mem c t arr hget
          have := (htags' i c hc kv hkv hmem).1
          have hilen : i < g.cells.length := (List.get?_eq_some.mp hc).1
          omega
    · rw [if_neg h1]
      intro i c hc
      constructor
      · intro hmem
        have := (hbucket' i c hc).mp hmem
        omega
      · intro t arr hget hmem
        obtain ⟨kv, hkv, -, rfl⟩ := TagIndex.getTag_mem c t arr hget
        have := (htags' i c hc kv hkv hmem).1
        omega
  obtain ⟨cl, hcl, -⟩ := SpatialGrid.updateCell_cells g pid ((st pid).update sqrtFn mf)
    (g.hashPosition (st pid).position)
  have hflat' : pid ∈ (ParticleSystem.stepParticle sqrtFn mf (st, g) pid).2.particles := by
    rw [hg2, hcl]
    exact hflat
  have hglobal' :
      pid ∈ (ParticleSystem.stepParticle sqrtFn mf (st, g) pid).2.globalTagIndex.particles := by
    rw [hg2, hcl]
    exact hglobal
  refine ⟨hcells, hflat', hglobal', ?_, ?_, ?_⟩
  · intro tags qp l hql hmem
    obtain ⟨c, lc, hc, hcq, hplc⟩ :=
      SpatialGrid.query_spatial_sound _ tags qp l hql pid hmem
    obtain ⟨i, hci⟩ := List.mem_iff_get?.mp hc
    obtain ⟨hp, ht⟩ := hcells i c hci
    exact TagIndex.query_excludes c pid hp ht tags lc hcq hplc
  · intro l hl
    have : (ParticleSystem.stepParticle sqrtFn mf (st, g) pid).2.query Filter.empty none
        = some (ParticleSystem.stepParticle sqrtFn mf
            (st, g) pid).2.globalTagIndex.particles := rfl
    rw [this] at hl
    obtain rfl := Option.some_inj.mp hl
    exact hglobal'
  · show ((updStore st pid _) pid).removeFlag = _
    rw [updStore, if_pos rfl]
    exact Particle.update_removeFlag sqrtFn (st pid) mf

/-- A store holding one particle at `(5, 5, 0)` moving left fast enough to
leave the 10×10 domain in one step. -/
def c10st : PId → Particle := fun _ => { Particle.new ⟨5, 5, 0⟩ with velocity := ⟨-10, 0, 0⟩ }

/-- The 10×10 grid (cell size 10) holding that particle. -/
def c10grid : SpatialGrid :=
  ((SpatialGrid.create ⟨10, 10, 0⟩ 10).addParticle 0 (c10st 0)).getD
    (SpatialGrid.create ⟨10, 10, 0⟩ 10)

/-- Witness for C10 at the concrete escaping particle (integration moves it
to `(−5, 5, 0)`, which hashes to the `−1` sentinel). -/
theorem c10_witness :
    (∀ i c, (ParticleSystem.stepParticle id (-1) (c10st, c10grid) 0).2.cells.get? i = some c →
        0 ∉ c.particles ∧ ∀ t arr, c.getTag t = some arr → 0 ∉ arr) ∧
      0 ∈ (ParticleSystem.stepParticle id (-1) (c10st, c10grid) 0).2.particles ∧
      0 ∈ (ParticleSystem.stepParticle id (-1) (c10st, c10grid) 0).2.globalTagIndex.particles ∧
      (∀ tags qp l,
        (ParticleSystem.stepParticle id (-1) (c10st, c10grid) 0).2.query tags (some qp) = some l →
          0 ∉ l) ∧
      (∀ l, (ParticleSystem.stepParticle id (-1) (c10st, c10grid) 0).2.query Filter.empty none
          = some l → 0 ∈ l) ∧
      ((ParticleSystem.stepParticle id (-1) (c10st, c10grid) 0).1 0).removeFlag
        = (c10st 0).removeFlag :=
  c10_escaped_particle id (-1) c10st c10grid 0 (by with_unfolding_all decide)
    (by with_unfolding_all decide) (by with_unfolding_all decide)
    (by with_unfolding_all decide) (by with_unfolding_all decide)
    (by with_unfolding_all decide) (by with_unfolding_all decide)

/-! ### C7 — the bucket invariant across a complete tick -/

/-- A non-sentinel hash is below `rows * cols`. -/
theorem SpatialGrid.hash_lt (g : SpatialGrid) (pos : Vector3)
    (h : 0 ≤ g.hashPosition pos) :
    g.hashPosition pos < (g.rows : ℤ) * (g.cols : ℤ) := by
  unfold SpatialGrid.hashPosition at h ⊢
  dsimp only at h ⊢
  by_cases hc : ⌊pos.x / g.cellSize⌋ < 0 ∨ (g.cols : ℤ) ≤ ⌊pos.x / g.cellSize⌋ ∨
      ⌊pos.y / g.cellSize⌋ < 0 ∨ (g.rows : ℤ) ≤ ⌊pos.y / g.cellSize⌋
  · rw [if_pos hc] at h
    exact absurd h (by norm_num)
  · rw [if_neg hc] at h ⊢
    push_neg at hc
    obtain ⟨h1, h2, h3, h4⟩ := hc
    have hexp : (⌊pos.y / g.cellSize⌋ + 1) * (g.cols : ℤ)
        = ⌊pos.y / g.cellSize⌋ * (g.cols : ℤ) + (g.cols : ℤ) := by ring
    have hstep : (⌊pos.y / g.cellSize⌋ + 1) * (g.cols : ℤ)
        ≤ (g.rows : ℤ) * (g.cols : ℤ) := by
      apply mul_le_mul_of_nonneg_right
      · omega
      · exact Int.ofNat_nonneg _
    linarith

/-- Well-formedness of the spatial bucketing: the cell array has the
constructed `rows * cols` size, the flat particle list and every cell's
member list are duplicate-free, and every live particle is a member of
exactly the cell its position hashes to (and of no other cell). -/
def GridWF (g : SpatialGrid) (st : PId → Particle) : Prop :=
  g.cells.length = g.rows * g.cols ∧
  (∀ i c, g.cells.get? i = some c → c.particles.Nodup) ∧
  g.particles.Nodup ∧
  (∀ pid ∈ g.particles, ∀ i c, g.cells.get? i = some c →
    (pid ∈ c.particles ↔ (i : ℤ) = g.hashPosition ((st pid).position)))

/-- Replacing the stored lists leaves the hash function unchanged. -/
theorem SpatialGrid.hash_mk (g : SpatialGrid) (pl : List PId) (cl : List TagIndex)
    (ti : TagIndex) (pos : Vector3) :
    ({ g with
        particles := pl
        cells := cl
        globalTagIndex := ti } : SpatialGrid).hashPosition pos = g.hashPosition pos := rfl

/-- Replacing only the cell array leaves the hash function unchanged. -/
theorem SpatialGrid.hash_cells_mk (g : SpatialGrid) (cl : List TagIndex) (pos : Vector3) :
    ({ g with cells := cl } : SpatialGrid).hashPosition pos = g.hashPosition pos := rfl

/-- The bucket invariant only depends on the store through positions. -/
theorem GridWF_store_congr {g : SpatialGrid} {st st' : PId → Particle}
    (hpos : ∀ pid, (st' pid).position = (st pid).position)
    (hwf : GridWF g st) : GridWF g st' := by
  obtain ⟨h1, h2, h3, h4⟩ := hwf
  refine ⟨h1, h2, h3, ?_⟩
  intro pid hpid i c hc
  rw [hpos pid]
  exact h4 pid hpid i c hc

/-- `addParticle` sends each cell either to itself or to itself with the new
id appended. -/
theorem SpatialGrid.addParticle_cells_particles {g g' : SpatialGrid} {pid : PId}
    {p : Particle} (h : g.addParticle pid p = some g') (j : Nat) (c : TagIndex)
    (hc : g'.cells.get? j = some c) :
    ∃ c0, g.cells.get? j = some c0 ∧
      (c.particles = c0.particles ∨ c.particles = c0.particles ++ [pid]) := by
  obtain ⟨-, -, -, hg⟩ := SpatialGrid.addParticle_eq g pid p g' h
  subst hg
  dsimp only at hc
  rw [get?_listModify] at hc
  by_cases hj : j = (g.hashPosition p.position).toNat
  · rw [if_pos hj] at hc
    obtain ⟨c0, hc0, rfl⟩ := Option.map_eq_some'.mp hc
    exact ⟨c0, hc0, Or.inr (TagIndex.add_particles c0 pid p.tags)⟩
  · rw [if_neg hj] at hc
    exact ⟨c, hc, Or.inl rfl⟩

/-- Committing a fresh particle preserves the bucket invariant: it lands in
exactly the cell its position hashes to. -/
theorem SpatialGrid.addParticle_WF {g g' : SpatialGrid} {st : PId → Particle} {pid : PId}
    (h : g.addParticle pid (st pid) = some g')
    (hwf : GridWF g st) (hflat : pid ∉ g.particles)
    (hcells : ∀ i c, g.cells.get? i = some c → pid ∉ c.particles) :
    GridWF g' st ∧ g'.particles = g.particles ++ [pid] := by
  obtain ⟨hlen, hnd, hpnd, hb⟩ := hwf
  obtain ⟨hin, hge0, hlt, hg⟩ := SpatialGrid.addParticle_eq g pid (st pid) g' h
  subst hg
  refine ⟨⟨?_, ?_, ?_, ?_⟩, rfl⟩
  · dsimp only
    rw [listModify_length]
    exact hlen
  · intro i c hc
    dsimp only at hc
    rw [get?_listModify] at hc
    by_cases hio : i = (g.hashPosition ((st pid).position)).toNat
    · rw [if_pos hio] at hc
      obtain ⟨c0, hc0, rfl⟩ := Option.map_eq_some'.mp hc
      rw [TagIndex.add_particles, List.nodup_append]
      refine ⟨hnd i c0 hc0, List.nodup_singleton pid, ?_⟩
      intro a ha hb'
      rw [List.mem_singleton] at hb'
      subst hb'
      exact hcells i c0 hc0 ha
    · rw [if_neg hio] at hc
      exact hnd i c hc
  · dsimp only
    rw [List.nodup_append]
    refine ⟨hpnd, List.nodup_singleton pid, ?_⟩
    intro a ha hb'
    rw [List.mem_singleton] at hb'
    subst hb'
    exact hflat ha
  · intro q hq i c hc
    have hq' : q ∈ g.particles ++ [pid] := hq
    rw [SpatialGrid.hash_mk]
    dsimp only at hc
    rw [get?_listModify] at hc
    rcases List.mem_append.mp hq' with hmem | hpid'
    · have hqne : q ≠ pid := fun heq => hflat (heq ▸ hmem)
      by_cases hio : i = (g.hashPosition ((st pid).position)).toNat
      · rw [if_pos hio] at hc
        obtain ⟨c0, hc0, rfl⟩ := Option.map_eq_some'.mp hc
        rw [TagIndex.add_particles, List.mem_append, List.mem_singleton]
        constructor
        · rintro (hin0 | rfl)
          · exact (hb q hmem i c0 hc0).mp hin0
          · exact absurd rfl hqne
        · intro hz
          exact Or.inl ((hb q hmem i c0 hc0).mpr hz)
      · rw [if_neg hio] at hc
        exact hb q hmem i c hc
    · rw [List.mem_singleton] at hpid'
      subst hpid'
      by_cases hio : i = (g.hashPosition ((st q).position)).toNat
      · rw [if_pos hio] at hc
        obtain ⟨c0, hc0, rfl⟩ := Option.map_eq_some'.mp hc
        rw [TagIndex.add_particles, List.mem_append, List.mem_singleton]
        constructor
        · intro _
          omega
        · intro _
          exact Or.inr rfl
      · rw [if_neg hio] at hc
        constructor
        · intro hz
          exact absurd hz (hcells i c hc)
        · intro hz
          exfalso
          omega

/-- The commit loop preserves the bucket invariant when the queued ids are
distinct and not already present anywhere in the grid. -/
theorem commit_WF {queue : List PId} {st : PId → Particle} {g g' : SpatialGrid}
    (h : queue.foldlM (fun g q => g.addParticle q (st q)) g = some g')
    (hwf : GridWF g st) (hqnd : queue.Nodup)
    (hfresh : ∀ q ∈ queue, q ∉ g.particles ∧
      ∀ i c, g.cells.get? i = some c → q ∉ c.particles) :
    GridWF g' st := by
  induction queue generalizing g with
  | nil => cases h; exact hwf
  | cons q rest ih =>
      rw [List.foldlM_cons,
        show (bind : Option SpatialGrid → (SpatialGrid → Option SpatialGrid) → Option SpatialGrid)
          = Option.bind from rfl, Option.bind_eq_some'] at h
      obtain ⟨g1, hg1, h⟩ := h
      have hqf := hfresh q (List.mem_cons_self q rest)
      have hstep := SpatialGrid.addParticle_WF hg1 hwf hqf.1 hqf.2
      refine ih h hstep.1 (List.nodup_cons.mp hqnd).2 ?_
      intro r hr
      have hrq : r ≠ q := fun heq => (List.nodup_cons.mp hqnd).1 (heq ▸ hr)
      constructor
      · rw [hstep.2]
        rw [List.mem_append, List.mem_singleton]
        rintro (hmem | rfl)
        · exact (hfresh r (List.mem_cons_of_mem q hr)).1 hmem
        · exact hrq rfl
      · intro i c hc
        obtain ⟨c0, hc0, hcase⟩ := SpatialGrid.addParticle_cells_particles hg1 i c hc
        have hr0 := (hfresh r (List.mem_cons_of_mem q hr)).2 i c0 hc0
        rcases hcase with heq | heq
        · rw [heq]
          exact hr0
        · rw [heq, List.mem_append, List.mem_singleton]
          rintro (hmem | rfl)
          · exact hr0 hmem
          · exact hrq rfl

/-- Record characterization of `removeParticle`. -/
theorem SpatialGrid.removeParticle_eq (g : SpatialGrid) (r : PId) (p : Particle) :
    g.removeParticle r p = { g with
      cells := if 0 ≤ g.hashPosition p.position then
          listModify g.cells (g.hashPosition p.position).toNat
            (fun c => c.remove r p.tags)
        else g.cells
      particles := g.particles.erase r
      globalTagIndex := g.globalTagIndex.remove r p.tags } := by
  unfold SpatialGrid.removeParticle
  dsimp only
  by_cases hc : 0 ≤ g.hashPosition p.position
  · rw [if_pos hc, if_pos hc]
  · rw [if_neg hc, if_neg hc]

/-- Removing any particle preserves the bucket invariant for the survivors. -/
theorem SpatialGrid.removeParticle_WF {g : SpatialGrid} {st : PId → Particle}
    (hwf : GridWF g st) (r : PId) (p : Particle) :
    GridWF (g.removeParticle r p) st := by
  obtain ⟨hlen, hnd, hpnd, hb⟩ := hwf
  rw [SpatialGrid.removeParticle_eq]
  refine ⟨?_, ?_, ?_, ?_⟩
  · dsimp only
    by_cases hc : 0 ≤ g.hashPosition p.position
    · rw [if_pos hc, listModify_length]
      exact hlen
    · rw [if_neg hc]
      exact hlen
  · intro i c hc'
    dsimp only at hc'
    by_cases hc : 0 ≤ g.hashPosition p.position
    · rw [if_pos hc, get?_listModify] at hc'
      by_cases hio : i = (g.hashPosition p.position).toNat
      · rw [if_pos hio] at hc'
        obtain ⟨c0, hc0, rfl⟩ := Option.map_eq_some'.mp hc'
        rw [TagIndex.remove_particles]
        exact (hnd i c0 hc0).erase r
      · rw [if_neg hio] at hc'
        exact hnd i c hc'
    · rw [if_neg hc] at hc'
      exact hnd i c hc'
  · exact hpnd.erase r
  · intro q hq i c hc'
    have hq' : q ∈ g.particles.erase r := hq
    have hmem : q ∈ g.particles := List.mem_of_mem_erase hq'
    have hqr : q ≠ r := by
      intro heq
      subst heq
      exact hpnd.not_mem_erase hq'
    rw [SpatialGrid.hash_mk]
    dsimp only at hc'
    by_cases hc : 0 ≤ g.hashPosition p.position
    · rw [if_pos hc, get?_listModify] at hc'
      by_cases hio : i = (g.hashPosition p.position).toNat
      · rw [if_pos hio] at hc'
        obtain ⟨c0, hc0, rfl⟩ := Option.map_eq_some'.mp hc'
        rw [TagIndex.remove_particles, List.mem_erase_of_ne hqr]
        exact hb q hmem i c0 hc0
      · rw [if_neg hio] at hc'
        exact hb q hmem i c hc'
    · rw [if_neg hc] at hc'
      exact hb q hmem i c hc'

/-- The particle-removal loop of the cleanup phase preserves the bucket
invariant of its grid component (for any fixed reference store). -/
theorem cleanup_fold_WF (s : ParticleSystem) (l : List PId)
    (acc : SpatialGrid × (SId → Spring)) (hwf : GridWF acc.1 s.store) :
    GridWF (l.foldl (fun (acc : SpatialGrid × (SId → Spring)) pid =>
        (acc.1.removeParticle pid (s.store pid),
         (s.store pid).connections.foldl
           (fun sst sid => updStore sst sid (fun sp => { sp with removeFlag := true })) acc.2))
      acc).1 s.store := by
  induction l generalizing acc with
  | nil => exact hwf
  | cons q rest ih =>
      rw [List.foldl_cons]
      exact ih _ (SpatialGrid.removeParticle_WF hwf q (s.store q))

/-- A store update by a position-preserving map preserves every position. -/
theorem updStore_position (st : PId → Particle) (i : PId) (f : Particle → Particle)
    (pid : PId) (hf : ∀ p, (f p).position = p.position) :
    ((updStore st i f) pid).position = (st pid).position := by
  unfold updStore
  by_cases h : pid = i
  · rw [if_pos h]
    exact hf (st pid)
  · rw [if_neg h]

/-- The spring-detach loop of the cleanup phase never moves a particle. -/
theorem detach_fold_position (flagged : List SId) (sst : SId → Spring)
    (init : List SId) (st : PId → Particle) (pid : PId) :
    (((flagged.foldl (fun (acc : List SId × (PId → Particle)) sid =>
        (acc.1.erase sid,
         updStore (updStore acc.2 (sst sid).particle1 (fun p => p.removeSpring sid))
           (sst sid).particle2 (fun p => p.removeSpring sid))) (init, st)).2) pid).position
      = (st pid).position := by
  induction flagged generalizing init st with
  | nil => rfl
  | cons sid rest ih =>
      rw [List.foldl_cons]
      rw [ih]
      rw [updStore_position _ (sst sid).particle2 (fun p => p.removeSpring sid) pid
          (fun p => rfl),
        updStore_position _ (sst sid).particle1 (fun p => p.removeSpring sid) pid
          (fun p => rfl)]

/-- The cleanup phase preserves the bucket invariant. -/
theorem cleanUp_WF (s s' : ParticleSystem) (h : s.cleanUpParticles = some s')
    (hwf : GridWF s.grid s.store) : GridWF s'.grid s'.store := by
  unfold ParticleSystem.cleanUpParticles at h
  simp only [SpatialGrid.query, TagIndex.query, bind, Option.some_bind',
    Option.some_inj] at h
  subst h
  dsimp only
  refine GridWF_store_congr ?_ (cleanup_fold_WF s _ (s.grid, s.sstore) hwf)
  intro pid
  exact detach_fold_position _ _ _ _ pid

/-- The cell-array rewrite performed by `updateCell` when the index changed:
remove from the old slot when valid, then add to the new slot when valid. -/
def SpatialGrid.updCells (g : SpatialGrid) (pid : PId) (p : Particle) (old : ℤ) :
    List TagIndex :=
  let cl1 := if 0 ≤ old ∧ old.toNat < g.cells.length then
      listModify g.cells old.toNat (fun c => c.remove pid p.tags)
    else g.cells
  if 0 ≤ g.hashPosition p.position ∧ (g.hashPosition p.position).toNat < cl1.length then
    listModify cl1 (g.hashPosition p.position).toNat (fun c => c.add pid p.tags)
  else cl1

/-- `updateCell` as a record update: identity when the index is unchanged,
otherwise the remove/add rewrite of the cell array. -/
theorem SpatialGrid.updateCell_eq (g : SpatialGrid) (pid : PId) (p : Particle) (old : ℤ) :
    g.updateCell pid p old =
      if g.hashPosition p.position = old then g
      else { g with cells := g.updCells pid p old } := by
  unfold SpatialGrid.updateCell SpatialGrid.updCells
  dsimp only
  by_cases h0 : g.hashPosition p.position = old
  · rw [if_neg (not_not_intro h0), if_pos h0]
  · rw [if_pos h0, if_neg h0]
    by_cases hA : 0 ≤ old ∧ old.toNat < g.cells.length
    · rw [if_pos hA, if_pos hA]
      dsimp only
      by_cases hB : 0 ≤ g.hashPosition p.position ∧
          (g.hashPosition p.position).toNat
            < (listModify g.cells old.toNat (fun c => c.remove pid p.tags)).length
      · rw [if_pos hB, if_pos hB]
      · rw [if_neg hB, if_neg hB]
    · rw [if_neg hA, if_neg hA]
      by_cases hB : 0 ≤ g.hashPosition p.position ∧
          (g.hashPosition p.position).toNat < g.cells.length
      · rw [if_pos hB, if_pos hB]
      · rw [if_neg hB, if_neg hB]

/-- After the remove half of a re-bucketing step the cell array keeps its
length and duplicate-freeness, the stepped particle is in no cell, and every
other live particle still sits exactly in its hashed cell. -/
theorem stepRemove_facts (g : SpatialGrid) (st : PId → Particle) (pid : PId) (p' : Particle)
    (X : List TagIndex)
    (hXdef : X = if 0 ≤ g.hashPosition ((st pid).position) ∧
        (g.hashPosition ((st pid).position)).toNat < g.cells.length then
        listModify g.cells (g.hashPosition ((st pid).position)).toNat
          (fun c => c.remove pid p'.tags)
      else g.cells)
    (hwf : GridWF g st) (hpid : pid ∈ g.particles) :
    X.length = g.cells.length ∧
    (∀ j c, X.get? j = some c → c.particles.Nodup) ∧
    (∀ j c, X.get? j = some c → pid ∉ c.particles) ∧
    (∀ q ∈ g.particles, q ≠ pid → ∀ j c, X.get? j = some c →
      (q ∈ c.particles ↔ (j : ℤ) = g.hashPosition ((st q).position))) := by
  obtain ⟨hlen, hnd, hpnd, hb⟩ := hwf
  by_cases hA : 0 ≤ g.hashPosition ((st pid).position) ∧
      (g.hashPosition ((st pid).position)).toNat < g.cells.length
  · rw [if_pos hA] at hXdef
    subst hXdef
    refine ⟨listModify_length _ _ _, ?_, ?_, ?_⟩
    · intro j c hc
      rw [get?_listModify] at hc
      by_cases hj : j = (g.hashPosition ((st pid).position)).toNat
      · rw [if_pos hj] at hc
        obtain ⟨c0, hc0, rfl⟩ := Option.map_eq_some'.mp hc
        rw [TagIndex.remove_particles]
        exact (hnd j c0 hc0).erase pid
      · rw [if_neg hj] at hc
        exact hnd j c hc
    · intro j c hc
      rw [get?_listModify] at hc
      by_cases hj : j = (g.hashPosition ((st pid).position)).toNat
      · rw [if_pos hj] at hc
        obtain ⟨c0, hc0, rfl⟩ := Option.map_eq_some'.mp hc
        rw [TagIndex.remove_particles]
        exact (hnd j c0 hc0).not_mem_erase
      · rw [if_neg hj] at hc
        intro hmem
        have := (hb pid hpid j c hc).mp hmem
        omega
    · intro q hq hqp j c hc
      rw [get?_listModify] at hc
      by_cases hj : j = (g.hashPosition ((st pid).position)).toNat
      · rw [if_pos hj] at hc
        obtain ⟨c0, hc0, rfl⟩ := Option.map_eq_some'.mp hc
        rw [TagIndex.remove_particles, List.mem_erase_of_ne hqp]
        exact hb q hq j c0 hc0
      · rw [if_neg hj] at hc
        exact hb q hq j c hc
  · rw [if_neg hA] at hXdef
    subst hXdef
    have hsent : g.hashPosition ((st pid).position) = -1 := by
      rcases SpatialGrid.hash_cases g ((st pid).position) with hm | hge
      · exact hm
      · exfalso
        apply hA
        refine ⟨hge, ?_⟩
        have hlt := SpatialGrid.hash_lt g ((st pid).position) hge
        have hlt2 : g.hashPosition ((st pid).position) < ((g.cells.length : Nat) : ℤ) := by
          rw [hlen]
          push_cast
          exact hlt
        omega
    refine ⟨rfl, hnd, ?_, ?_⟩
    · intro j c hc
      intro hmem
      have := (hb pid hpid j c hc).mp hmem
      rw [hsent] at this
      omega
    · intro q hq hqp j c hc
      exact hb q hq j c hc

/-- After the add half of a re-bucketing step the bucket invariant holds for
the updated store: the stepped particle is exactly in the cell its new
position hashes to, everyone else is untouched. -/
theorem stepAdd_WF (g : SpatialGrid) (st : PId → Particle) (pid : PId) (p' : Particle)
    (X : List TagIndex)
    (hlen : g.cells.length = g.rows * g.cols)
    (hXlen : X.length = g.cells.length)
    (hpnd : g.particles.Nodup)
    (hG1 : ∀ j c, X.get? j = some c → c.particles.Nodup)
    (hG2 : ∀ j c, X.get? j = some c → pid ∉ c.particles)
    (hG3 : ∀ q ∈ g.particles, q ≠ pid → ∀ j c, X.get? j = some c →
      (q ∈ c.particles ↔ (j : ℤ) = g.hashPosition ((st q).position))) :
    GridWF { g with cells :=
        if 0 ≤ g.hashPosition p'.position ∧ (g.hashPosition p'.position).toNat < X.length then
          listModify X (g.hashPosition p'.position).toNat (fun c => c.add pid p'.tags)
        else X }
      (updStore st pid (fun _ => p')) := by
  have hstp : updStore st pid (fun _ => p') pid = p' := by
    unfold updStore
    rw [if_pos rfl]
  have hstq : ∀ q, q ≠ pid → updStore st pid (fun _ => p') q = st q := by
    intro q hq
    unfold updStore
    rw [if_neg hq]
  refine ⟨?_, ?_, ?_, ?_⟩
  · dsimp only
    by_cases hB : 0 ≤ g.hashPosition p'.position ∧
        (g.hashPosition p'.position).toNat < X.length
    · rw [if_pos hB, listModify_length, hXlen]
      exact hlen
    · rw [if_neg hB, hXlen]
      exact hlen
  · intro i c hc
    dsimp only at hc
    by_cases hB : 0 ≤ g.hashPosition p'.position ∧
        (g.hashPosition p'.position).toNat < X.length
    · rw [if_pos hB, get?_listModify] at hc
      by_cases hi : i = (g.hashPosition p'.position).toNat
      · rw [if_pos hi] at hc
        obtain ⟨c1, hc1, rfl⟩ := Option.map_eq_some'.mp hc
        rw [TagIndex.add_particles, List.nodup_append]
        refine ⟨hG1 i c1 hc1, List.nodup_singleton pid, ?_⟩
        intro a ha hb'
        rw [List.mem_singleton] at hb'
        subst hb'
        exact hG2 i c1 hc1 ha
      · rw [if_neg hi] at hc
        exact hG1 i c hc
    · rw [if_neg hB] at hc
      exact hG1 i c hc
  · exact hpnd
  · intro q hq i c hc
    have hqmem : q ∈ g.particles := hq
    rw [SpatialGrid.hash_cells_mk]
    dsimp only at hc
    by_cases hqp : q = pid
    · subst hqp
      rw [hstp]
      by_cases hB : 0 ≤ g.hashPosition p'.position ∧
          (g.hashPosition p'.position).toNat < X.length
      · rw [if_pos hB, get?_listModify] at hc
        by_cases hi : i = (g.hashPosition p'.position).toNat
        · rw [if_pos hi] at hc
          obtain ⟨c1, hc1, rfl⟩ := Option.map_eq_some'.mp hc
          rw [TagIndex.add_particles, List.mem_append, List.mem_singleton]
          constructor
          · intro _
            omega
          · intro _
            exact Or.inr rfl
        · rw [if_neg hi] at hc
          constructor
          · intro hmem
            exact absurd hmem (hG2 i c hc)
          · intro hz
            exfalso
            omega
      · have hsent : g.hashPosition p'.position = -1 := by
          rcases SpatialGrid.hash_cases g p'.position with hm | hge
          · exact hm
          · exfalso
            apply hB
            refine ⟨hge, ?_⟩
            have hlt := SpatialGrid.hash_lt g p'.position hge
            have hlt2 : g.hashPosition p'.position < ((g.cells.length : Nat) : ℤ) := by
              rw [hlen]
              push_cast
              exact hlt
            omega
        rw [if_neg hB] at hc
        constructor
        · intro hmem
          exact absurd hmem (hG2 i c hc)
        · intro hz
          rw [hsent] at hz
          exfalso
          omega
    · rw [hstq q hqp]
      by_cases hB : 0 ≤ g.hashPosition p'.position ∧
          (g.hashPosition p'.position).toNat < X.length
      · rw [if_pos hB, get?_listModify] at hc
        by_cases hi : i = (g.hashPosition p'.position).toNat
        · rw [if_pos hi] at hc
          obtain ⟨c1, hc1, rfl⟩ := Option.map_eq_some'.mp hc
          rw [TagIndex.add_particles, List.mem_append, List.mem_singleton]
          constructor
          · rintro (hmem | rfl)
            · exact (hG3 q hqmem hqp i c1 hc1).mp hmem
            · exact absurd rfl hqp
          · intro hz
            exact Or.inl ((hG3 q hqmem hqp i c1 hc1).mpr hz)
        · rw [if_neg hi] at hc
          exact hG3 q hqmem hqp i c hc
      · rw [if_neg hB] at hc
        exact hG3 q hqmem hqp i c hc

/-- One re-bucketing step preserves the bucket invariant (for the updated
store) and the flat particle list. -/
theorem stepParticle_WF (sqrtFn : ℚ → ℚ) (mf : ℚ)
    (st : PId → Particle) (g : SpatialGrid) (pid : PId)
    (hwf : GridWF g st) (hpid : pid ∈ g.particles) :
    GridWF (ParticleSystem.stepParticle sqrtFn mf (st, g) pid).2
        ((ParticleSystem.stepParticle sqrtFn mf (st, g) pid).1) ∧
      (ParticleSystem.stepParticle sqrtFn mf (st, g) pid).2.particles = g.particles := by
  have hstep : ParticleSystem.stepParticle sqrtFn mf (st, g) pid
      = (updStore st pid (fun _ => (st pid).update sqrtFn mf),
         g.updateCell pid ((st pid).update sqrtFn mf)
           (g.hashPosition ((st pid).position))) := rfl
  rw [hstep]
  constructor
  · dsimp only
    rw [SpatialGrid.updateCell_eq]
    by_cases h0 : g.hashPosition (((st pid).update sqrtFn mf).position)
        = g.hashPosition ((st pid).position)
    · rw [if_pos h0]
      obtain ⟨hlen, hnd, hpnd, hb⟩ := hwf
      refine ⟨hlen, hnd, hpnd, ?_⟩
      intro q hq i c hc
      by_cases hqp : q = pid
      · subst hqp
        have hupd : updStore st q (fun _ => (st q).update sqrtFn mf) q
            = (st q).update sqrtFn mf := by
          unfold updStore
          rw [if_pos rfl]
        rw [hupd, h0]
        exact hb q hq i c hc
      · have hupd : updStore st pid (fun _ => (st pid).update sqrtFn mf) q = st q := by
          unfold updStore
          rw [if_neg hqp]
        rw [hupd]
        exact hb q hq i c hc
    · rw [if_neg h0]
      obtain ⟨hXlen, hG1, hG2, hG3⟩ :=
        stepRemove_facts g st pid ((st pid).update sqrtFn mf) _ rfl hwf hpid
      exact stepAdd_WF g st pid ((st pid).update sqrtFn mf) _
        hwf.1 hXlen hwf.2.2.1 hG1 hG2 hG3
  · obtain ⟨cl, hcl, -⟩ := SpatialGrid.updateCell_cells g pid
      ((st pid).update sqrtFn mf) (g.hashPosition ((st pid).position))
    dsimp only
    rw [hcl]

/-- The phase-5 fold preserves the bucket invariant when it iterates over
live ids. -/
theorem foldl_stepParticle_WF (sqrtFn : ℚ → ℚ) (mf : ℚ) (l : List PId)
    (st : PId → Particle) (g : SpatialGrid)
    (hwf : GridWF g st) (hl : ∀ q ∈ l, q ∈ g.particles) :
    GridWF (l.foldl (ParticleSystem.stepParticle sqrtFn mf) (st, g)).2
      ((l.foldl (ParticleSystem.stepParticle sqrtFn mf) (st, g)).1) := by
  induction l generalizing st g with
  | nil => exact hwf
  | cons q rest ih =>
      rw [List.foldl_cons]
      have hq := hl q (List.mem_cons_self q rest)
      have hstep := stepParticle_WF sqrtFn mf st g q hwf hq
      refine ih _ _ hstep.1 ?_
      intro r hr
      show r ∈ (ParticleSystem.stepParticle sqrtFn mf (st, g) q).2.particles
      rw [hstep.2]
      exact hl r (List.mem_cons_of_mem q hr)

/-- The integration phase preserves the bucket invariant. -/
theorem updateParticles_WF (sqrtFn : ℚ → ℚ) (s : ParticleSystem)
    (hwf : GridWF s.grid s.store) :
    GridWF (s.updateParticles sqrtFn).grid ((s.updateParticles sqrtFn).store) := by
  unfold ParticleSystem.updateParticles
  dsimp only
  exact foldl_stepParticle_WF sqrtFn s.maxForce s.grid.particles s.store s.grid hwf
    (fun q hq => hq)

/-- **C7** (confirmed): after any complete successful tick, every live entity
is a member of exactly the cell Tag Index whose flat index equals its hashed
position (`floor(y/cellSize) * cols + floor(x/cellSize)`), and of no other
cell.  The hypotheses state the same bucket invariant, plus duplicate
freeness and queue freshness, for the pre-tick state: the invariant is
preserved by the commit, constraint, behavior, integration/re-bucketing and
cleanup phases. -/
theorem c7_bucket_invariant (sqrtFn : ℚ → ℚ) (s s' : ParticleSystem)
    (hlen : s.grid.cells.length = s.grid.rows * s.grid.cols)
    (hcellnd : ∀ i, (hi : i < s.grid.cells.length) →
      ((s.grid.cells.get ⟨i, hi⟩).particles).Nodup)
    (hflatnd : s.grid.particles.Nodup)
    (hbucket : ∀ pid ∈ s.grid.particles, ∀ i, (hi : i < s.grid.cells.length) →
      (pid ∈ (s.grid.cells.get ⟨i, hi⟩).particles ↔
        (i : ℤ) = s.grid.hashPosition ((s.store pid).position)))
    (hqnd : s.particleCreationQueue.Nodup)
    (hqueue : ∀ pid ∈ s.particleCreationQueue, pid ∉ s.grid.particles ∧
      ∀ i, (hi : i < s.grid.cells.length) → pid ∉ (s.grid.cells.get ⟨i, hi⟩).particles)
    (h : s.update sqrtFn = some s') :
    ∀ pid ∈ s'.grid.particles, ∀ i, (hi : i < s'.grid.cells.length) →
      (pid ∈ (s'.grid.cells.get ⟨i, hi⟩).particles ↔
        (i : ℤ) = s'.grid.hashPosition ((s'.store pid).position)) := by
  have hwf : GridWF s.grid s.store := by
    refine ⟨hlen, ?_, hflatnd, ?_⟩
    · intro i c hc
      obtain ⟨hi, hget⟩ := List.get?_eq_some.mp hc
      rw [← hget]
      exact hcellnd i hi
    · intro pid hpid i c hc
      obtain ⟨hi, hget⟩ := List.get?_eq_some.mp hc
      rw [← hget]
      exact hbucket pid hpid i hi
  obtain ⟨g1, s4, hc1, hb4, hclean⟩ := update_destruct sqrtFn s s' h
  have hfresh : ∀ q ∈ s.particleCreationQueue, q ∉ s.grid.particles ∧
      ∀ i c, s.grid.cells.get? i = some c → q ∉ c.particles := by
    intro q hq
    refine ⟨(hqueue q hq).1, ?_⟩
    intro i c hc
    obtain ⟨hi, hget⟩ := List.get?_eq_some.mp hc
    rw [← hget]
    exact (hqueue q hq).2 i hi
  have hwf1 : GridWF g1 s.store := commit_WF hc1 hwf hqnd hfresh
  have hwf4 : GridWF s4.grid s4.store := by
    obtain ⟨st4, hs4⟩ := updateBehaviors_eq _ s4 hb4
    have hfo1 := updateSprings_forcesOnly sqrtFn { s with
      grid := g1
      particleCreationQueue := []
      springs := s.springs ++ s.springCreationQueue
      springCreationQueue := [] }
    have hfo2 := updateBehaviors_forcesOnly _ s4 hb4
    have hgrid4 : s4.grid = g1 := by
      rw [hs4]
      rfl
    rw [hgrid4]
    refine GridWF_store_congr ?_ hwf1
    intro pid
    rw [forcesOnly_position hfo2 pid]
    exact forcesOnly_position hfo1 pid
  have hwf5 := updateParticles_WF sqrtFn s4 hwf4
  have hwf6 := cleanUp_WF _ s' hclean hwf5
  obtain ⟨-, -, -, hb6⟩ := hwf6
  intro pid hpid i hi
  exact hb6 pid hpid i _ (List.get?_eq_get hi)

/-- A fresh system with one admitted particle at `(5, 5, 0)`, still queued
for its first commit. -/
def c7sys : ParticleSystem := (csys.createParticle ⟨5, 5, 0⟩ false).2

/-- The state after one tick of that system (the tick succeeds; `getD` just
unwraps it). -/
def c7post : ParticleSystem := (c7sys.update id).getD c7sys

/-- Particle 0 is live after the tick. -/
theorem c7mem : 0 ∈ c7post.grid.particles := by with_unfolding_all decide

/-- The post-tick grid has a cell 0. -/
theorem c7bound0 : 0 < c7post.grid.cells.length := by with_unfolding_all decide

/-- The post-tick grid has a cell 3. -/
theorem c7bound3 : 3 < c7post.grid.cells.length := by with_unfolding_all decide

/-- Witness for C7: the tick commits particle 0, and afterwards its
membership in cell 0 and in cell 3 each hold exactly when that cell's index
is the hash of its position. -/
theorem c7_witness :
    (0 ∈ (c7post.grid.cells.get ⟨0, c7bound0⟩).particles ↔
      ((0 : Nat) : ℤ) = c7post.grid.hashPosition ((c7post.store 0).position)) ∧
    (0 ∈ (c7post.grid.cells.get ⟨3, c7bound3⟩).particles ↔
      ((3 : Nat) : ℤ) = c7post.grid.hashPosition ((c7post.store 0).position)) :=
  ⟨c7_bucket_invariant id c7sys c7post
      (by with_unfolding_all decide) (by with_unfolding_all decide)
      (by with_unfolding_all decide) (by with_unfolding_all decide)
      (by with_unfolding_all decide) (by with_unfolding_all decide)
      (by with_unfolding_all rfl) 0 c7mem 0 c7bound0,
    c7_bucket_invariant id c7sys c7post
      (by with_unfolding_all decide) (by with_unfolding_all decide)
      (by with_unfolding_all decide) (by with_unfolding_all decide)
      (by with_unfolding_all decide) (by with_unfolding_all decide)
      (by with_unfolding_all rfl) 0 c7mem 3 c7bound3⟩

/-! ### C1 — exactly-once pair enumeration of the symmetric phase -/

/-- The (successful) query result of the cell at column `cx`, row `cy`,
defaulting to `[]` for missing cells or failed queries. -/
def cellQ (g : SpatialGrid) (filter : Filter) (cx cy : Nat) : List PId :=
  ((g.getCell cx cy).bind (fun c => c.query filter)).getD []

/-- The cross product of two member lists, in loop order. -/
def crossP (la lb : List PId) : List (PId × PId) :=
  la.flatMap (fun a => lb.map (fun b => (a, b)))

/-- Invocations of the within-cell call at `(cx, cy)`. -/
def F1 (g : SpatialGrid) (filter : Filter) (cx cy : Nat) : List (PId × PId) :=
  SpatialGrid.sameCellPairs (cellQ g filter cx cy)

/-- Invocations of the `(cx+1, cy)` neighbor call. -/
def F2 (g : SpatialGrid) (filter : Filter) (cx cy : Nat) : List (PId × PId) :=
  if cx + 1 < g.cols then crossP (cellQ g filter cx cy) (cellQ g filter (cx + 1) cy)
  else []

/-- Invocations of the `(cx+1, cy+1)` neighbor call. -/
def F3 (g : SpatialGrid) (filter : Filter) (cx cy : Nat) : List (PId × PId) :=
  if cx + 1 < g.cols ∧ cy + 1 < g.rows then
    crossP (cellQ g filter cx cy) (cellQ g filter (cx + 1) (cy + 1))
  else []

/-- Invocations of the `(cx, cy+1)` neighbor call. -/
def F4 (g : SpatialGrid) (filter : Filter) (cx cy : Nat) : List (PId × PId) :=
  if cy + 1 < g.rows then crossP (cellQ g filter cx cy) (cellQ g filter cx (cy + 1))
  else []

/-- Invocations of the `(cx−1, cy+1)` neighbor call. -/
def F5 (g : SpatialGrid) (filter : Filter) (cx cy : Nat) : List (PId × PId) :=
  if 1 ≤ cx ∧ cy + 1 < g.rows then
    crossP (cellQ g filter cx cy) (cellQ g filter (cx - 1) (cy + 1))
  else []

/-- Valid coordinates always find a cell in a well-sized cell array. -/
theorem getCell_valid (g : SpatialGrid) (hlen : g.cells.length = g.rows * g.cols)
    (cx cy : Nat) (hcx : cx < g.cols) (hcy : cy < g.rows) :
    ∃ c, g.getCell cx cy = some c := by
  unfold SpatialGrid.getCell
  have hidx : cx + cy * g.cols < g.cells.length := by
    rw [hlen]
    calc cx + cy * g.cols < g.cols + cy * g.cols := by omega
      _ = (cy + 1) * g.cols := by ring
      _ ≤ g.rows * g.cols := Nat.mul_le_mul_right _ (by omega)
  exact ⟨_, List.get?_eq_get hidx⟩

/-- When every cell's query succeeds, `cellQ` is the query result of the
found cell. -/
theorem cellQ_eq (g : SpatialGrid) (filter : Filter)
    (hlen : g.cells.length = g.rows * g.cols)
    (hqok : ∀ i c, g.cells.get? i = some c → (c.query filter).isSome = true)
    (cx cy : Nat) (hcx : cx < g.cols) (hcy : cy < g.rows) :
    ∃ c, g.getCell cx cy = some c ∧ c.query filter = some (cellQ g filter cx cy) := by
  obtain ⟨c, hc⟩ := getCell_valid g hlen cx cy hcx hcy
  have hq : (c.query filter).isSome = true := hqok (cx + cy * g.cols) c hc
  obtain ⟨l, hl⟩ := Option.isSome_iff_exists.mp hq
  refine ⟨c, hc, ?_⟩
  have hcq : cellQ g filter cx cy = l := by
    unfold cellQ
    rw [hc]
    show (c.query filter).getD [] = l
    rw [hl]
    rfl
  rw [hcq, hl]

/-- The within-cell invocation of `_applySymmetricCell`: the `i < j` pairs of
the cell's filtered member list. -/
theorem cellPairCalls_self (g : SpatialGrid) (filter : Filter)
    (hlen : g.cells.length = g.rows * g.cols)
    (hqok : ∀ i c, g.cells.get? i = some c → (c.query filter).isSome = true)
    (cx cy : Nat) (hcx : cx < g.cols) (hcy : cy < g.rows) :
    g.cellPairCalls filter (cx : ℤ) (cy : ℤ) (cx : ℤ) (cy : ℤ)
      = some (F1 g filter cx cy) := by
  obtain ⟨c, hc, hq⟩ := cellQ_eq g filter hlen hqok cx cy hcx hcy
  unfold SpatialGrid.cellPairCalls
  rw [if_neg (by push_neg; refine ⟨by omega, by omega, by omega, by omega⟩ :
    ¬((cx : ℤ) < 0 ∨ (cy : ℤ) < 0 ∨ (g.cols : ℤ) ≤ (cx : ℤ) ∨ (g.rows : ℤ) ≤ (cy : ℤ)))]
  have ht1 : ((cx : ℤ)).toNat = cx := by omega
  have ht2 : ((cy : ℤ)).toNat = cy := by omega
  rw [ht1, ht2]
  simp only [hc, hq, bind, Option.some_bind', true_and, and_true]
  rfl

/-- The `(cx+1, cy)` invocation: the cross product of the two member lists,
or nothing when the neighbor column is out of bounds. -/
theorem cellPairCalls_off2 (g : SpatialGrid) (filter : Filter)
    (hlen : g.cells.length = g.rows * g.cols)
    (hqok : ∀ i c, g.cells.get? i = some c → (c.query filter).isSome = true)
    (cx cy : Nat) (hcx : cx < g.cols) (hcy : cy < g.rows) :
    g.cellPairCalls filter (cx : ℤ) (cy : ℤ) ((cx : ℤ) + 1) (cy : ℤ)
      = some (F2 g filter cx cy) := by
  by_cases hb : cx + 1 < g.cols
  · obtain ⟨cA, hcA, hqA⟩ := cellQ_eq g filter hlen hqok cx cy hcx hcy
    obtain ⟨cB, hcB, hqB⟩ := cellQ_eq g filter hlen hqok (cx + 1) cy hb hcy
    unfold SpatialGrid.cellPairCalls
    rw [if_neg (by omega :
      ¬((cx : ℤ) + 1 < 0 ∨ (cy : ℤ) < 0 ∨ (g.cols : ℤ) ≤ (cx : ℤ) + 1 ∨
        (g.rows : ℤ) ≤ (cy : ℤ)))]
    have ht1 : ((cx : ℤ)).toNat = cx := by omega
    have ht2 : ((cy : ℤ)).toNat = cy := by omega
    have ht3 : ((cx : ℤ) + 1).toNat = cx + 1 := by omega
    rw [ht1, ht2, ht3]
    simp only [hcA, hcB, hqA, hqB, bind, Option.some_bind', true_and, and_true]
    rw [if_neg (by omega : ¬((cx : ℤ) = (cx : ℤ) + 1))]
    unfold F2 crossP
    rw [if_pos hb]
  · unfold SpatialGrid.cellPairCalls
    rw [if_pos (by omega :
      ((cx : ℤ) + 1 < 0 ∨ (cy : ℤ) < 0 ∨ (g.cols : ℤ) ≤ (cx : ℤ) + 1 ∨
        (g.rows : ℤ) ≤ (cy : ℤ)))]
    unfold F2
    rw [if_neg hb]

/-- The `(cx+1, cy+1)` invocation. -/
theorem cellPairCalls_off3 (g : SpatialGrid) (filter : Filter)
    (hlen : g.cells.length = g.rows * g.cols)
    (hqok : ∀ i c, g.cells.get? i = some c → (c.query filter).isSome = true)
    (cx cy : Nat) (hcx : cx < g.cols) (hcy : cy < g.rows) :
    g.cellPairCalls filter (cx : ℤ) (cy : ℤ) ((cx : ℤ) + 1) ((cy : ℤ) + 1)
      = some (F3 g filter cx cy) := by
  by_cases hb : cx + 1 < g.cols ∧ cy + 1 < g.rows
  · obtain ⟨cA, hcA, hqA⟩ := cellQ_eq g filter hlen hqok cx cy hcx hcy
    obtain ⟨cB, hcB, hqB⟩ := cellQ_eq g filter hlen hqok (cx + 1) (cy + 1) hb.1 hb.2
    unfold SpatialGrid.cellPairCalls
    rw [if_neg (by omega :
      ¬((cx : ℤ) + 1 < 0 ∨ (cy : ℤ) + 1 < 0 ∨ (g.cols : ℤ) ≤ (cx : ℤ) + 1 ∨
        (g.rows : ℤ) ≤ (cy : ℤ) + 1))]
    have ht1 : ((cx : ℤ)).toNat = cx := by omega
    have ht2 : ((cy : ℤ)).toNat = cy := by omega
    have ht3 : ((cx : ℤ) + 1).toNat = cx + 1 := by omega
    have ht4 : ((cy : ℤ) + 1).toNat = cy + 1 := by omega
    rw [ht1, ht2, ht3, ht4]
    simp only [hcA, hcB, hqA, hqB, bind, Option.some_bind', true_and, and_true]
    rw [if_neg (by omega : ¬((cx : ℤ) = (cx : ℤ) + 1 ∧ (cy : ℤ) = (cy : ℤ) + 1))]
    unfold F3 crossP
    rw [if_pos hb]
  · unfold SpatialGrid.cellPairCalls
    rw [if_pos (by omega :
      ((cx : ℤ) + 1 < 0 ∨ (cy : ℤ) + 1 < 0 ∨ (g.cols : ℤ) ≤ (cx : ℤ) + 1 ∨
        (g.rows : ℤ) ≤ (cy : ℤ) + 1))]
    unfold F3
    rw [if_neg hb]

/-- The `(cx, cy+1)` invocation. -/
theorem cellPairCalls_off4 (g : SpatialGrid) (filter : Filter)
    (hlen : g.cells.length = g.rows * g.cols)
    (hqok : ∀ i c, g.cells.get? i = some c → (c.query filter).isSome = true)
    (cx cy : Nat) (hcx : cx < g.cols) (hcy : cy < g.rows) :
    g.cellPairCalls filter (cx : ℤ) (cy : ℤ) (cx : ℤ) ((cy : ℤ) + 1)
      = some (F4 g filter cx cy) := by
  by_cases hb : cy + 1 < g.rows
  · obtain ⟨cA, hcA, hqA⟩ := cellQ_eq g filter hlen hqok cx cy hcx hcy
    obtain ⟨cB, hcB, hqB⟩ := cellQ_eq g filter hlen hqok cx (cy + 1) hcx hb
    unfold SpatialGrid.cellPairCalls
    rw [if_neg (by omega :
      ¬((cx : ℤ) < 0 ∨ (cy : ℤ) + 1 < 0 ∨ (g.cols : ℤ) ≤ (cx : ℤ) ∨
        (g.rows : ℤ) ≤ (cy : ℤ) + 1))]
    have ht1 : ((cx : ℤ)).toNat = cx := by omega
    have ht2 : ((cy : ℤ)).toNat = cy := by omega
    have ht4 : ((cy : ℤ) + 1).toNat = cy + 1 := by omega
    rw [ht1, ht2, ht4]
    simp only [hcA, hcB, hqA, hqB, bind, Option.some_bind', true_and, and_true]
    rw [if_neg (by omega : ¬((cy : ℤ) = (cy : ℤ) + 1))]
    unfold F4 crossP
    rw [if_pos hb]
  · unfold SpatialGrid.cellPairCalls
    rw [if_pos (by omega :
      ((cx : ℤ) < 0 ∨ (cy : ℤ) + 1 < 0 ∨ (g.cols : ℤ) ≤ (cx : ℤ) ∨
        (g.rows : ℤ) ≤ (cy : ℤ) + 1))]
    unfold F4
    rw [if_neg hb]

/-- The `(cx−1, cy+1)` invocation. -/
theorem cellPairCalls_off5 (g : SpatialGrid) (filter : Filter)
    (hlen : g.cells.length = g.rows * g.cols)
    (hqok : ∀ i c, g.cells.get? i = some c → (c.query filter).isSome = true)
    (cx cy : Nat) (hcx : cx < g.cols) (hcy : cy < g.rows) :
    g.cellPairCalls filter (cx : ℤ) (cy : ℤ) ((cx : ℤ) - 1) ((cy : ℤ) + 1)
      = some (F5 g filter cx cy) := by
  by_cases hb : 1 ≤ cx ∧ cy + 1 < g.rows
  · obtain ⟨cA, hcA, hqA⟩ := cellQ_eq g filter hlen hqok cx cy hcx hcy
    obtain ⟨cB, hcB, hqB⟩ := cellQ_eq g filter hlen hqok (cx - 1) (cy + 1)
      (by omega) hb.2
    unfold SpatialGrid.cellPairCalls
    rw [if_neg (by omega :
      ¬((cx : ℤ) - 1 < 0 ∨ (cy : ℤ) + 1 < 0 ∨ (g.cols : ℤ) ≤ (cx : ℤ) - 1 ∨
        (g.rows : ℤ) ≤ (cy : ℤ) + 1))]
    have ht1 : ((cx : ℤ)).toNat = cx := by omega
    have ht2 : ((cy : ℤ)).toNat = cy := by omega
    have ht3 : ((cx : ℤ) - 1).toNat = cx - 1 := by omega
    have ht4 : ((cy : ℤ) + 1).toNat = cy + 1 := by omega
    rw [ht1, ht2, ht3, ht4]
    simp only [hcA, hcB, hqA, hqB, bind, Option.some_bind', true_and, and_true]
    rw [if_neg (by omega : ¬((cx : ℤ) = (cx : ℤ) - 1 ∧ (cy : ℤ) = (cy : ℤ) + 1))]
    unfold F5 crossP
    rw [if_pos hb]
  · unfold SpatialGrid.cellPairCalls
    rw [if_pos (by omega :
      ((cx : ℤ) - 1 < 0 ∨ (cy : ℤ) + 1 < 0 ∨ (g.cols : ℤ) ≤ (cx : ℤ) - 1 ∨
        (g.rows : ℤ) ≤ (cy : ℤ) + 1))]
    unfold F5
    rw [if_neg hb]

/-- A fold over `Option` whose every step appends a per-element block
succeeds with the concatenation of the blocks. -/
theorem foldlM_append_total {β : Type} (step : List β → Nat → Option (List β))
    (out : Nat → List β) :
    ∀ (l : List Nat), (∀ acc i, i ∈ l → step acc i = some (acc ++ out i)) →
    ∀ acc, l.foldlM step acc = some (acc ++ l.flatMap out) := by
  intro l
  induction l with
  | nil =>
      intro _ acc
      simp
  | cons i rest ih =>
      intro hstep acc
      rw [List.foldlM_cons, hstep acc i (List.mem_cons_self i rest)]
      show rest.foldlM step (acc ++ out i) = some (acc ++ (i :: rest).flatMap out)
      rw [ih (fun acc2 j hj => hstep acc2 j (List.mem_cons_of_mem i hj)) (acc ++ out i)]
      congr 1
      rw [List.flatMap_cons, List.append_assoc]

/-- The coerced range list is the mapped range. -/
theorem range_cast_list (n : Nat) :
    (do
      let a ← List.range n
      pure ((a : ℤ))) = (List.range n).map (fun (a : Nat) => (a : ℤ)) := by
  show (List.range n).flatMap (fun a => [(a : ℤ)])
    = (List.range n).map (fun (a : Nat) => (a : ℤ))
  suffices h : ∀ l : List Nat, l.flatMap (fun a => [(a : ℤ)])
      = l.map (fun (a : Nat) => (a : ℤ)) from h _
  intro l
  induction l with
  | nil => rfl
  | cons x xs ih =>
      rw [List.flatMap_cons, List.map_cons, ih]
      rfl

/-- Folding over a mapped list composes the map into the step. -/
theorem foldlM_map_option {α β γ : Type} (g0 : α → β) (f : γ → β → Option γ)
    (l : List α) (init : γ) :
    (l.map g0).foldlM f init = l.foldlM (fun acc x => f acc (g0 x)) init := by
  induction l generalizing init with
  | nil => rfl
  | cons x xs ih => simp [List.foldlM_cons, ih]

/-- When every cell query succeeds, the symmetric phase's invocation list is
the concatenation, cell by cell in loop order, of the within-cell pairs and
the four forward neighbor cross products. -/
theorem symmetricCalls_eq (g : SpatialGrid) (filter : Filter)
    (hlen : g.cells.length = g.rows * g.cols)
    (hqok : ∀ i c, g.cells.get? i = some c → (c.query filter).isSome = true) :
    g.symmetricCalls filter = some ((List.range g.cols).flatMap (fun cx =>
      (List.range g.rows).flatMap (fun cy =>
        F1 g filter cx cy ++ F2 g filter cx cy ++ F3 g filter cx cy ++
          F4 g filter cx cy ++ F5 g filter cx cy))) := by
  have hstep : ∀ (acc : List (PId × PId)) (cx : Nat), cx ∈ List.range g.cols →
      (List.range g.rows).foldlM (fun acc cy => do
          let l1 ← g.cellPairCalls filter cx cy cx cy
          let l2 ← g.cellPairCalls filter cx cy ((cx : ℤ) + 1) cy
          let l3 ← g.cellPairCalls filter cx cy ((cx : ℤ) + 1) ((cy : ℤ) + 1)
          let l4 ← g.cellPairCalls filter cx cy cx ((cy : ℤ) + 1)
          let l5 ← g.cellPairCalls filter cx cy ((cx : ℤ) - 1) ((cy : ℤ) + 1)
          some (acc ++ l1 ++ l2 ++ l3 ++ l4 ++ l5)) acc
        = some (acc ++ (List.range g.rows).flatMap
            (fun cy => F1 g filter cx cy ++ F2 g filter cx cy ++ F3 g filter cx cy ++
              F4 g filter cx cy ++ F5 g filter cx cy)) := by
    intro acc cx hcx
    have hcx' : cx < g.cols := List.mem_range.mp hcx
    refine foldlM_append_total _
      (fun cy => F1 g filter cx cy ++ F2 g filter cx cy ++ F3 g filter cx cy ++
        F4 g filter cx cy ++ F5 g filter cx cy) (List.range g.rows) ?_ acc
    intro acc2 cy hcy
    have hcy' : cy < g.rows := List.mem_range.mp hcy
    simp only [cellPairCalls_self g filter hlen hqok cx cy hcx' hcy',
      cellPairCalls_off2 g filter hlen hqok cx cy hcx' hcy',
      cellPairCalls_off3 g filter hlen hqok cx cy hcx' hcy',
      cellPairCalls_off4 g filter hlen hqok cx cy hcx' hcy',
      cellPairCalls_off5 g filter hlen hqok cx cy hcx' hcy',
      bind, Option.some_bind']
    simp [List.append_assoc]
  unfold SpatialGrid.symmetricCalls
  rw [range_cast_list g.cols, range_cast_list g.rows]
  simp only [foldlM_map_option]
  exact foldlM_append_total _ _ (List.range g.cols) hstep []

/-- Occurrences of a pair in a map that fixes the first component. -/
theorem count_map_pair (x0 : PId) (lb : List PId) (x y : PId) :
    (lb.map (fun b => (x0, b))).count (x, y) = if x0 = x then lb.count y else 0 := by
  induction lb with
  | nil => simp
  | cons b rest ih =>
      simp only [List.map_cons, List.count_cons, ih, Prod.mk.injEq]
      by_cases hx : x0 = x
      · subst hx
        by_cases hy : y = b
        · subst hy
          simp
        · simp [hy]
      · have hx2 : ¬(x = x0) := fun h => hx h.symm
        simp [hx, hx2]

/-- Occurrences of a pair in a cross product. -/
theorem count_crossP (la lb : List PId) (x y : PId) :
    (crossP la lb).count (x, y) = la.count x * lb.count y := by
  unfold crossP
  induction la with
  | nil => simp
  | cons a rest ih =>
      rw [List.flatMap_cons, List.count_append, ih, count_map_pair, List.count_cons]
      simp only [beq_iff_eq]
      by_cases hx : a = x
      · rw [if_pos hx, if_pos hx]
        ring
      · rw [if_neg hx, if_neg hx]
        ring

/-- Unordered occurrence count of a pair of distinct entities among the
`i < j` pairs: the product of the entities' member counts. -/
theorem sameCellPairs_count_mul (l : List PId) (a b : PId) (hab : a ≠ b) :
    (SpatialGrid.sameCellPairs l).count (a, b)
        + (SpatialGrid.sameCellPairs l).count (b, a)
      = l.count a * l.count b := by
  induction l with
  | nil => rfl
  | cons x rest ih =>
      rw [show SpatialGrid.sameCellPairs (x :: rest)
          = rest.map (fun y => (x, y)) ++ SpatialGrid.sameCellPairs rest from rfl]
      rw [List.count_append, List.count_append, count_map_pair, count_map_pair,
        List.count_cons, List.count_cons]
      simp only [beq_iff_eq]
      by_cases hxa : x = a
      · have hxb : ¬(x = b) := fun h => hab (hxa.symm.trans h)
        rw [if_pos hxa, if_neg hxb, if_pos hxa, if_neg hxb]
        have hexp : (rest.count a + 1) * (rest.count b + 0)
            = rest.count a * rest.count b + rest.count b := by ring
        linarith [ih]
      · by_cases hxb : x = b
        · rw [if_neg hxa, if_pos hxb, if_neg hxa, if_pos hxb]
          have hexp : (rest.count a + 0) * (rest.count b + 1)
              = rest.count a * rest.count b + rest.count a := by ring
          linarith [ih]
        · rw [if_neg hxa, if_neg hxb, if_neg hxa, if_neg hxb]
          have hexp : (rest.count a + 0) * (rest.count b + 0)
              = rest.count a * rest.count b := by ring
          linarith [ih]

/-- An entity occurring at most once in a member list is never paired with
itself by the `i < j` enumeration. -/
theorem sameCellPairs_count_self (l : List PId) (a : PId) (h : l.count a ≤ 1) :
    (SpatialGrid.sameCellPairs l).count (a, a) = 0 := by
  induction l with
  | nil => rfl
  | cons x rest ih =>
      rw [show SpatialGrid.sameCellPairs (x :: rest)
          = rest.map (fun y => (x, y)) ++ SpatialGrid.sameCellPairs rest from rfl]
      rw [List.count_cons] at h
      simp only [beq_iff_eq] at h
      rw [List.count_append, count_map_pair]
      by_cases hxa : x = a
      · rw [if_pos hxa] at h
        have h0 : rest.count a = 0 := by omega
        rw [if_pos hxa, h0, ih (by omega)]
      · rw [if_neg hxa] at h
        rw [if_neg hxa, ih (by omega)]

/-- The `i < j` pairs never mention an absent entity in first position. -/
theorem sameCellPairs_fst_zero (l : List PId) (a y : PId) (h : l.count a = 0) :
    (SpatialGrid.sameCellPairs l).count (a, y) = 0 := by
  induction l with
  | nil => rfl
  | cons x rest ih =>
      rw [show SpatialGrid.sameCellPairs (x :: rest)
          = rest.map (fun z => (x, z)) ++ SpatialGrid.sameCellPairs rest from rfl]
      rw [List.count_cons] at h
      simp only [beq_iff_eq] at h
      rw [List.count_append, count_map_pair]
      by_cases hxa : x = a
      · rw [if_pos hxa] at h
        exfalso
        omega
      · rw [if_neg hxa] at h
        rw [if_neg hxa, ih h]

/-- Counting in a flat map is the sum of the per-element counts. -/
theorem count_flatMap {α β : Type} [BEq β] (l : List α) (f : α → List β) (p : β) :
    (l.flatMap f).count p = (l.map (fun x => (f x).count p)).sum := by
  induction l with
  | nil => rfl
  | cons x rest ih => simp [List.flatMap_cons, List.count_append, ih]

/-- A sum of zeros is zero. -/
theorem sum_map_zero {α : Type} (l : List α) (f : α → Nat) (h : ∀ i ∈ l, f i = 0) :
    (l.map f).sum = 0 := by
  induction l with
  | nil => rfl
  | cons x rest ih =>
      rw [List.map_cons, List.sum_cons, h x (List.mem_cons_self x rest),
        ih (fun i hi => h i (List.mem_cons_of_mem x hi))]

/-- A sum over a duplicate-free list with a single non-zero entry. -/
theorem sum_map_eq_single {α : Type} [DecidableEq α] (l : List α) (f : α → Nat) (i0 : α)
    (h0 : i0 ∈ l) (hnd : l.Nodup) (hz : ∀ i ∈ l, i ≠ i0 → f i = 0) :
    (l.map f).sum = f i0 := by
  induction l with
  | nil => cases h0
  | cons x rest ih =>
      rw [List.map_cons, List.sum_cons]
      by_cases hx : x = i0
      · subst hx
        have hrest : (rest.map f).sum = 0 := by
          refine sum_map_zero rest f ?_
          intro i hi
          have hne : i ≠ x := by
            intro heq
            subst heq
            exact (List.nodup_cons.mp hnd).1 hi
          exact hz i (List.mem_cons_of_mem x hi) hne
        rw [hrest]
        omega
      · have h0' : i0 ∈ rest := by
          rcases List.mem_cons.mp h0 with heq | hm
          · exact absurd heq.symm hx
          · exact hm
        rw [hz x (List.mem_cons_self x rest) hx,
          ih h0' (List.nodup_cons.mp hnd).2
            (fun i hi hne => hz i (List.mem_cons_of_mem x hi) hne)]
        omega

/-- Pair count of the `(cx+1, cy)` call. -/
theorem F2_count (g : SpatialGrid) (filter : Filter) (cx cy : Nat) (x y : PId) :
    (F2 g filter cx cy).count (x, y)
      = if cx + 1 < g.cols then
          (cellQ g filter cx cy).count x * (cellQ g filter (cx + 1) cy).count y
        else 0 := by
  unfold F2
  by_cases hb : cx + 1 < g.cols
  · rw [if_pos hb, if_pos hb, count_crossP]
  · rw [if_neg hb, if_neg hb]
    rfl

/-- Pair count of the `(cx+1, cy+1)` call. -/
theorem F3_count (g : SpatialGrid) (filter : Filter) (cx cy : Nat) (x y : PId) :
    (F3 g filter cx cy).count (x, y)
      = if cx + 1 < g.cols ∧ cy + 1 < g.rows then
          (cellQ g filter cx cy).count x * (cellQ g filter (cx + 1) (cy + 1)).count y
        else 0 := by
  unfold F3
  by_cases hb : cx + 1 < g.cols ∧ cy + 1 < g.rows
  · rw [if_pos hb, if_pos hb, count_crossP]
  · rw [if_neg hb, if_neg hb]
    rfl

/-- Pair count of the `(cx, cy+1)` call. -/
theorem F4_count (g : SpatialGrid) (filter : Filter) (cx cy : Nat) (x y : PId) :
    (F4 g filter cx cy).count (x, y)
      = if cy + 1 < g.rows then
          (cellQ g filter cx cy).count x * (cellQ g filter cx (cy + 1)).count y
        else 0 := by
  unfold F4
  by_cases hb : cy + 1 < g.rows
  · rw [if_pos hb, if_pos hb, count_crossP]
  · rw [if_neg hb, if_neg hb]
    rfl

/-- Pair count of the `(cx−1, cy+1)` call. -/
theorem F5_count (g : SpatialGrid) (filter : Filter) (cx cy : Nat) (x y : PId) :
    (F5 g filter cx cy).count (x, y)
      = if 1 ≤ cx ∧ cy + 1 < g.rows then
          (cellQ g filter cx cy).count x * (cellQ g filter (cx - 1) (cy + 1)).count y
        else 0 := by
  unfold F5
  by_cases hb : 1 ≤ cx ∧ cy + 1 < g.rows
  · rw [if_pos hb, if_pos hb, count_crossP]
  · rw [if_neg hb, if_neg hb]
    rfl

/-- A cell whose filtered member list misses `x` generates no invocation
with `x` in first position. -/
theorem FBlock_fst_zero (g : SpatialGrid) (filter : Filter) (cx cy : Nat) (x y : PId)
    (h : (cellQ g filter cx cy).count x = 0) :
    (F1 g filter cx cy ++ F2 g filter cx cy ++ F3 g filter cx cy ++
      F4 g filter cx cy ++ F5 g filter cx cy).count (x, y) = 0 := by
  have h1 : (F1 g filter cx cy).count (x, y) = 0 :=
    sameCellPairs_fst_zero (cellQ g filter cx cy) x y h
  have h2 : (F2 g filter cx cy).count (x, y) = 0 := by
    rw [F2_count]
    by_cases hb : cx + 1 < g.cols
    · rw [if_pos hb, h, Nat.zero_mul]
    · rw [if_neg hb]
  have h3 : (F3 g filter cx cy).count (x, y) = 0 := by
    rw [F3_count]
    by_cases hb : cx + 1 < g.cols ∧ cy + 1 < g.rows
    · rw [if_pos hb, h, Nat.zero_mul]
    · rw [if_neg hb]
  have h4 : (F4 g filter cx cy).count (x, y) = 0 := by
    rw [F4_count]
    by_cases hb : cy + 1 < g.rows
    · rw [if_pos hb, h, Nat.zero_mul]
    · rw [if_neg hb]
  have h5 : (F5 g filter cx cy).count (x, y) = 0 := by
    rw [F5_count]
    by_cases hb : 1 ≤ cx ∧ cy + 1 < g.rows
    · rw [if_pos hb, h, Nat.zero_mul]
    · rw [if_neg hb]
  rw [List.count_append, List.count_append, List.count_append, List.count_append,
    h1, h2, h3, h4, h5]

/-- When all invocation blocks except the one at `(cx0, cy0)` are free of
the pair `p`, the global count is that single block's count. -/
theorem count_nested_single (g : SpatialGrid) (filter : Filter) (p : PId × PId)
    (cx0 cy0 : Nat) (hx0 : cx0 < g.cols) (hy0 : cy0 < g.rows)
    (hzero : ∀ cx cy, cx < g.cols → cy < g.rows → ¬(cx = cx0 ∧ cy = cy0) →
      (F1 g filter cx cy ++ F2 g filter cx cy ++ F3 g filter cx cy ++
        F4 g filter cx cy ++ F5 g filter cx cy).count p = 0) :
    ((List.range g.cols).flatMap (fun cx => (List.range g.rows).flatMap (fun cy =>
        F1 g filter cx cy ++ F2 g filter cx cy ++ F3 g filter cx cy ++
          F4 g filter cx cy ++ F5 g filter cx cy))).count p
      = (F1 g filter cx0 cy0 ++ F2 g filter cx0 cy0 ++ F3 g filter cx0 cy0 ++
          F4 g filter cx0 cy0 ++ F5 g filter cx0 cy0).count p := by
  rw [count_flatMap]
  have houter : ∀ cx ∈ List.range g.cols, cx ≠ cx0 →
      ((List.range g.rows).flatMap (fun cy =>
        F1 g filter cx cy ++ F2 g filter cx cy ++ F3 g filter cx cy ++
          F4 g filter cx cy ++ F5 g filter cx cy)).count p = 0 := by
    intro cx hcx hne
    rw [count_flatMap]
    refine sum_map_zero _ _ ?_
    intro cy hcy
    exact hzero cx cy (List.mem_range.mp hcx) (List.mem_range.mp hcy)
      (fun hc => hne hc.1)
  rw [sum_map_eq_single (List.range g.cols) _ cx0 (List.mem_range.mpr hx0)
    (List.nodup_range g.cols) houter]
  rw [count_flatMap]
  refine sum_map_eq_single (List.range g.rows) _ cy0 (List.mem_range.mpr hy0)
    (List.nodup_range g.rows) ?_
  intro cy hcy hne
  exact hzero cx0 cy hx0 (List.mem_range.mp hcy) (fun hc => hne hc.2)

set_option maxHeartbeats 1000000 in
/-- **C1** (confirmed): one registered symmetric interaction's invocation
sequence during the behavior phase (`symmetricCalls`: within-cell `i < j`
pairs plus the four forward neighbor offsets `(cx+1,cy)`, `(cx+1,cy+1)`,
`(cx,cy+1)`, `(cx−1,cy+1)`, skipping out-of-bounds neighbors) invokes the
callback exactly once per unordered pair of distinct matching entities whose
cells are within 1-cell Chebyshev distance (stated as the four coordinate
inequalities), and zero times for an entity paired with itself.  Hypotheses:
the cell array has its constructed size, every cell query succeeds, and each
of the two entities occurs exactly once in exactly one cell's query result
(`a` at `(cax, cay)`, `b` at `(cbx, cby)`). -/
theorem c1_symmetric_pairs_once (g : SpatialGrid) (filter : Filter)
    (a b : PId) (hab : a ≠ b) (cax cay cbx cby : Nat)
    (hcax : cax < g.cols) (hcay : cay < g.rows)
    (hcbx : cbx < g.cols) (hcby : cby < g.rows)
    (hlen : g.cells.length = g.rows * g.cols)
    (hqok : ∀ i, (hi : i < g.cells.length) →
      ((g.cells.get ⟨i, hi⟩).query filter).isSome = true)
    (hacount : ∀ cx, (hx : cx < g.cols) → ∀ cy, (hy : cy < g.rows) →
      (cellQ g filter cx cy).count a = if cx = cax ∧ cy = cay then 1 else 0)
    (hbcount : ∀ cx, (hx : cx < g.cols) → ∀ cy, (hy : cy < g.rows) →
      (cellQ g filter cx cy).count b = if cx = cbx ∧ cy = cby then 1 else 0) :
    ∃ L, g.symmetricCalls filter = some L ∧
      (L.count (a, b) + L.count (b, a)
        = if cax ≤ cbx + 1 ∧ cbx ≤ cax + 1 ∧ cay ≤ cby + 1 ∧ cby ≤ cay + 1 then 1
          else 0) ∧
      L.count (a, a) = 0 := by
  have hqok2 : ∀ i c, g.cells.get? i = some c → (c.query filter).isSome = true := by
    intro i c hc
    obtain ⟨hi, hget⟩ := List.get?_eq_some.mp hc
    rw [← hget]
    exact hqok i hi
  refine ⟨_, symmetricCalls_eq g filter hlen hqok2, ?_, ?_⟩
  · have hza : ∀ cx cy, cx < g.cols → cy < g.rows → ¬(cx = cax ∧ cy = cay) →
        (F1 g filter cx cy ++ F2 g filter cx cy ++ F3 g filter cx cy ++
          F4 g filter cx cy ++ F5 g filter cx cy).count (a, b) = 0 := by
      intro cx cy hx hy hne
      refine FBlock_fst_zero g filter cx cy a b ?_
      rw [hacount cx hx cy hy, if_neg hne]
    have hzb : ∀ cx cy, cx < g.cols → cy < g.rows → ¬(cx = cbx ∧ cy = cby) →
        (F1 g filter cx cy ++ F2 g filter cx cy ++ F3 g filter cx cy ++
          F4 g filter cx cy ++ F5 g filter cx cy).count (b, a) = 0 := by
      intro cx cy hx hy hne
      refine FBlock_fst_zero g filter cx cy b a ?_
      rw [hbcount cx hx cy hy, if_neg hne]
    rw [count_nested_single g filter (a, b) cax cay hcax hcay hza,
      count_nested_single g filter (b, a) cbx cby hcbx hcby hzb]
    have hqa_ca : (cellQ g filter cax cay).count a = 1 := by
      rw [hacount cax hcax cay hcay, if_pos ⟨rfl, rfl⟩]
    have hqb_cb : (cellQ g filter cbx cby).count b = 1 := by
      rw [hbcount cbx hcbx cby hcby, if_pos ⟨rfl, rfl⟩]
    have hF2a : (F2 g filter cax cay).count (a, b)
        = if cax + 1 = cbx ∧ cay = cby then 1 else 0 := by
      rw [F2_count]
      by_cases hb2 : cax + 1 < g.cols
      · rw [if_pos hb2, hqa_ca, Nat.one_mul, hbcount (cax + 1) hb2 cay hcay]
      · rw [if_neg hb2, if_neg (by omega : ¬(cax + 1 = cbx ∧ cay = cby))]
    have hF3a : (F3 g filter cax cay).count (a, b)
        = if cax + 1 = cbx ∧ cay + 1 = cby then 1 else 0 := by
      rw [F3_count]
      by_cases hb3 : cax + 1 < g.cols ∧ cay + 1 < g.rows
      · rw [if_pos hb3, hqa_ca, Nat.one_mul,
          hbcount (cax + 1) hb3.1 (cay + 1) hb3.2]
      · rw [if_neg hb3, if_neg (by omega : ¬(cax + 1 = cbx ∧ cay + 1 = cby))]
    have hF4a : (F4 g filter cax cay).count (a, b)
        = if cax = cbx ∧ cay + 1 = cby then 1 else 0 := by
      rw [F4_count]
      by_cases hb4 : cay + 1 < g.rows
      · rw [if_pos hb4, hqa_ca, Nat.one_mul, hbcount cax hcax (cay + 1) hb4]
      · rw [if_neg hb4, if_neg (by omega : ¬(cax = cbx ∧ cay + 1 = cby))]
    have hF5a : (F5 g filter cax cay).count (a, b)
        = if 1 ≤ cax ∧ cax - 1 = cbx ∧ cay + 1 = cby then 1 else 0 := by
      rw [F5_count]
      by_cases hb5 : 1 ≤ cax ∧ cay + 1 < g.rows
      · rw [if_pos hb5, hqa_ca, Nat.one_mul,
          hbcount (cax - 1) (by omega) (cay + 1) hb5.2]
        by_cases hc : cax - 1 = cbx ∧ cay + 1 = cby
        · rw [if_pos hc, if_pos ⟨hb5.1, hc.1, hc.2⟩]
        · rw [if_neg hc, if_neg (fun hh => hc ⟨hh.2.1, hh.2.2⟩)]
      · rw [if_neg hb5, if_neg (by omega : ¬(1 ≤ cax ∧ cax - 1 = cbx ∧ cay + 1 = cby))]
    have hF2b : (F2 g filter cbx cby).count (b, a)
        = if cbx + 1 = cax ∧ cby = cay then 1 else 0 := by
      rw [F2_count]
      by_cases hb2 : cbx + 1 < g.cols
      · rw [if_pos hb2, hqb_cb, Nat.one_mul, hacount (cbx + 1) hb2 cby hcby]
      · rw [if_neg hb2, if_neg (by omega : ¬(cbx + 1 = cax ∧ cby = cay))]
    have hF3b : (F3 g filter cbx cby).count (b, a)
        = if cbx + 1 = cax ∧ cby + 1 = cay then 1 else 0 := by
      rw [F3_count]
      by_cases hb3 : cbx + 1 < g.cols ∧ cby + 1 < g.rows
      · rw [if_pos hb3, hqb_cb, Nat.one_mul,
          hacount (cbx + 1) hb3.1 (cby + 1) hb3.2]
      · rw [if_neg hb3, if_neg (by omega : ¬(cbx + 1 = cax ∧ cby + 1 = cay))]
    have hF4b : (F4 g filter cbx cby).count (b, a)
        = if cbx = cax ∧ cby + 1 = cay then 1 else 0 := by
      rw [F4_count]
      by_cases hb4 : cby + 1 < g.rows
      · rw [if_pos hb4, hqb_cb, Nat.one_mul, hacount cbx hcbx (cby + 1) hb4]
      · rw [if_neg hb4, if_neg (by omega : ¬(cbx = cax ∧ cby + 1 = cay))]
    have hF5b : (F5 g filter cbx cby).count (b, a)
        = if 1 ≤ cbx ∧ cbx - 1 = cax ∧ cby + 1 = cay then 1 else 0 := by
      rw [F5_count]
      by_cases hb5 : 1 ≤ cbx ∧ cby + 1 < g.rows
      · rw [if_pos hb5, hqb_cb, Nat.one_mul,
          hacount (cbx - 1) (by omega) (cby + 1) hb5.2]
        by_cases hc : cbx - 1 = cax ∧ cby + 1 = cay
        · rw [if_pos hc, if_pos ⟨hb5.1, hc.1, hc.2⟩]
        · rw [if_neg hc, if_neg (fun hh => hc ⟨hh.2.1, hh.2.2⟩)]
      · rw [if_neg hb5, if_neg (by omega : ¬(1 ≤ cbx ∧ cbx - 1 = cax ∧ cby + 1 = cay))]
    rw [List.count_append, List.count_append, List.count_append, List.count_append,
      List.count_append, List.count_append, List.count_append, List.count_append]
    by_cases hsame : cax = cbx ∧ cay = cby
    · obtain ⟨hs1, hs2⟩ := hsame
      subst hs1
      subst hs2
      have hF1sum : (F1 g filter cax cay).count (a, b)
          + (F1 g filter cax cay).count (b, a) = 1 := by
        have hs := sameCellPairs_count_mul (cellQ g filter cax cay) a b hab
        rw [hqa_ca, hqb_cb] at hs
        unfold F1
        omega
      rw [if_neg (by omega : ¬(cax + 1 = cax ∧ cay = cay))] at hF2a
      rw [if_neg (by omega : ¬(cax + 1 = cax ∧ cay + 1 = cay))] at hF3a
      rw [if_neg (by omega : ¬(cax = cax ∧ cay + 1 = cay))] at hF4a
      rw [if_neg (by omega : ¬(1 ≤ cax ∧ cax - 1 = cax ∧ cay + 1 = cay))] at hF5a
      rw [if_neg (by omega : ¬(cax + 1 = cax ∧ cay = cay))] at hF2b
      rw [if_neg (by omega : ¬(cax + 1 = cax ∧ cay + 1 = cay))] at hF3b
      rw [if_neg (by omega : ¬(cax = cax ∧ cay + 1 = cay))] at hF4b
      rw [if_neg (by omega : ¬(1 ≤ cax ∧ cax - 1 = cax ∧ cay + 1 = cay))] at hF5b
      rw [hF2a, hF3a, hF4a, hF5a, hF2b, hF3b, hF4b, hF5b,
        if_pos (by omega : cax ≤ cax + 1 ∧ cax ≤ cax + 1 ∧ cay ≤ cay + 1 ∧ cay ≤ cay + 1)]
      omega
    · have hqb_ca : (cellQ g filter cax cay).count b = 0 := by
        rw [hbcount cax hcax cay hcay, if_neg hsame]
      have hqa_cb : (cellQ g filter cbx cby).count a = 0 := by
        rw [hacount cbx hcbx cby hcby,
          if_neg (fun hh => hsame ⟨hh.1.symm, hh.2.symm⟩)]
      have hF1a : (F1 g filter cax cay).count (a, b) = 0 := by
        have hs := sameCellPairs_count_mul (cellQ g filter cax cay) a b hab
        rw [hqa_ca, hqb_ca] at hs
        unfold F1
        omega
      have hF1b : (F1 g filter cbx cby).count (b, a) = 0 := by
        have hs := sameCellPairs_count_mul (cellQ g filter cbx cby) a b hab
        rw [hqa_cb, hqb_cb] at hs
        unfold F1
        omega
      rw [hF1a, hF1b, hF2a, hF3a, hF4a, hF5a, hF2b, hF3b, hF4b, hF5b]
      split_ifs <;> omega
  · have hza2 : ∀ cx cy, cx < g.cols → cy < g.rows → ¬(cx = cax ∧ cy = cay) →
        (F1 g filter cx cy ++ F2 g filter cx cy ++ F3 g filter cx cy ++
          F4 g filter cx cy ++ F5 g filter cx cy).count (a, a) = 0 := by
      intro cx cy hx hy hne
      refine FBlock_fst_zero g filter cx cy a a ?_
      rw [hacount cx hx cy hy, if_neg hne]
    rw [count_nested_single g filter (a, a) cax cay hcax hcay hza2]
    have hqa_ca : (cellQ g filter cax cay).count a = 1 := by
      rw [hacount cax hcax cay hcay, if_pos ⟨rfl, rfl⟩]
    have h1 : (F1 g filter cax cay).count (a, a) = 0 := by
      unfold F1
      exact sameCellPairs_count_self _ a (by omega)
    have h2 : (F2 g filter cax cay).count (a, a) = 0 := by
      rw [F2_count]
      by_cases hb2 : cax + 1 < g.cols
      · rw [if_pos hb2, hqa_ca, Nat.one_mul, hacount (cax + 1) hb2 cay hcay,
          if_neg (by omega : ¬(cax + 1 = cax ∧ cay = cay))]
      · rw [if_neg hb2]
    have h3 : (F3 g filter cax cay).count (a, a) = 0 := by
      rw [F3_count]
      by_cases hb3 : cax + 1 < g.cols ∧ cay + 1 < g.rows
      · rw [if_pos hb3, hqa_ca, Nat.one_mul,
          hacount (cax + 1) hb3.1 (cay + 1) hb3.2,
          if_neg (by omega : ¬(cax + 1 = cax ∧ cay + 1 = cay))]
      · rw [if_neg hb3]
    have h4 : (F4 g filter cax cay).count (a, a) = 0 := by
      rw [F4_count]
      by_cases hb4 : cay + 1 < g.rows
      · rw [if_pos hb4, hqa_ca, Nat.one_mul, hacount cax hcax (cay + 1) hb4,
          if_neg (by omega : ¬(cax = cax ∧ cay + 1 = cay))]
      · rw [if_neg hb4]
    have h5 : (F5 g filter cax cay).count (a, a) = 0 := by
      rw [F5_count]
      by_cases hb5 : 1 ≤ cax ∧ cay + 1 < g.rows
      · rw [if_pos hb5, hqa_ca, Nat.one_mul,
          hacount (cax - 1) (by omega) (cay + 1) hb5.2,
          if_neg (by omega : ¬(cax - 1 = cax ∧ cay + 1 = cay))]
      · rw [if_neg hb5]
    rw [List.count_append, List.count_append, List.count_append, List.count_append,
      h1, h2, h3, h4, h5]

/-- A 10×10 domain with cell size 10 (2×2 cells) holding particle 0 at
`(5, 5, 0)` — cell `(0, 0)`. -/
def c1g0 : SpatialGrid :=
  ((SpatialGrid.create ⟨10, 10, 0⟩ 10).addParticle 0 (Particle.new ⟨5, 5, 0⟩)).getD
    (SpatialGrid.create ⟨10, 10, 0⟩ 10)

/-- The same grid with particle 1 added at `(10, 5, 0)` — cell `(1, 0)`. -/
def c1grid : SpatialGrid :=
  (c1g0.addParticle 1 (Particle.new ⟨10, 5, 0⟩)).getD c1g0

/-- Witness for C1: on the concrete 2×2 grid with particles 0 and 1 in
horizontally adjacent cells, the symmetric phase invokes the unordered pair
exactly once and never pairs particle 0 with itself. -/
theorem c1_witness :
    ∃ L, c1grid.symmetricCalls Filter.empty = some L ∧
      (L.count (0, 1) + L.count (1, 0)
        = if 0 ≤ 1 + 1 ∧ 1 ≤ 0 + 1 ∧ 0 ≤ 0 + 1 ∧ 0 ≤ 0 + 1 then 1 else 0) ∧
      L.count (0, 0) = 0 :=
  c1_symmetric_pairs_once c1grid Filter.empty 0 1 (by decide) 0 0 1 0
    (by with_unfolding_all decide) (by with_unfolding_all decide)
    (by with_unfolding_all decide) (by with_unfolding_all decide)
    (by with_unfolding_all decide) (by with_unfolding_all decide)
    (by with_unfolding_all decide) (by with_unfolding_all decide)

end Playground
